import Mathlib

/-!
Verification development for the vp-master-bot marketplace bot.

The development shallowly embeds the persistent state of the bot (the
`requests`, `masters`, `offers` and `reviews` SQLite tables of
`src/database.py`) and the handlers of `src/bot.py` that mutate it:

* `send_to_masters`        (src/bot.py:2554-2637, offer broadcast)
* `offer_actions`          (src/bot.py:2640-2741, take / skip)
* `complete_order`         (src/bot.py:1070-1134)
* `client_confirmation`    (src/bot.py:1136-1211)
* `mark_request_completed` (src/bot.py:445-489)
* `request_review`         (src/bot.py:337-397)
* `process_rating`         (src/bot.py:966-1012)
* `update_master_stats`    (src/bot.py:399-430)
* `calc_skill_tier`        (src/bot.py:250-267)
* the auto-complete pass of `periodic_cleanup` (src/bot.py:2840-2872)
* the entitlement grants of `on_success_payment` (src/bot.py:2540-2551)
* `req_submit` (src/bot.py:1974-2005) and the master-profile insertions
  (src/bot.py:2233-2240, 2343-2353)

Modelling conventions: SQLite timestamps become `Option Int` (seconds;
`none` = NULL or unparsable, matching `is_active` in src/bot.py:121-126);
`datetime.utcnow()` becomes an explicit `now : Int` argument.  The REAL
column `avg_rating` always holds a value rounded to one decimal
(src/bot.py:417), so it is embedded as an integer number of tenths;
Python's `round(x, 1)` on the exact mean is embedded as round half to
even over exact rational arithmetic (`roundHalfEvenDiv`).  Free-text
columns that never influence control flow (name, phone, address,
description, portfolio, documents) are omitted from the row structures.
`DatabaseManager.execute` (src/database.py:21-30) runs each statement in
its own implicit transaction, commits it, and catches every exception,
returning `None` which `offer_actions` ignores; fallible execution of
the three mutating statements of a claim is embedded via `ExecFail`.
The rate limiter is an in-memory policy outside the store; its verdict
enters as a boolean `rateOk`.
-/

namespace VPBot

/-! ## String helpers

The category normalisation of `send_to_masters.cat_match`
(src/bot.py:2563-2580) works on Python `str`; it is embedded over
`List Char`.  `re.sub(r"[^а-яА-Я]", "", s)` keeps exactly the characters
U+0410..U+044F (it drops `ё`/`Ё` as the source pattern does), and
`.lower()` then lowercases the remaining Cyrillic letters. -/

def isCyr (c : Char) : Bool := 0x410 ≤ c.toNat && c.toNat ≤ 0x44F

def toLowerRu (c : Char) : Char :=
  if 0x410 ≤ c.toNat && c.toNat ≤ 0x42F then Char.ofNat (c.toNat + 0x20) else c

/-- Embeds `re.sub(r"[^а-яА-Я]", "", s).strip().lower()`: after the
substitution no whitespace remains, so `strip` is a no-op. -/
def cleanStr (l : List Char) : List Char := (l.filter isCyr).map toLowerRu

/-- Embeds Python `str.split(sep)` for a one-character separator:
every occurrence splits, empty pieces are kept. -/
def splitOnChar (sep : Char) (l : List Char) : List (List Char) :=
  match l with
  | [] => [[]]
  | c :: rest =>
    let r := splitOnChar sep rest
    if c == sep then [] :: r
    else
      match r with
      | [] => [[c]]
      | piece :: more => (c :: piece) :: more

/-- Embeds Python `str.strip()`. -/
def trimChars (l : List Char) : List Char :=
  ((l.dropWhile Char.isWhitespace).reverse.dropWhile Char.isWhitespace).reverse

def startsWithL : List Char → List Char → Bool
  | [], _ => true
  | _ :: _, [] => false
  | a :: as, b :: bs => a == b && startsWithL as bs

/-- Embeds Python's substring test `pat in text`. -/
def containsSub (pat : List Char) : List Char → Bool
  | [] => pat.isEmpty
  | c :: rest => startsWithL pat (c :: rest) || containsSub pat rest

/-- Rounds `a / b` (for `b > 0`) to the nearest integer, ties to even:
the embedding of Python `round` applied to the exact rational mean. -/
def roundHalfEvenDiv (a b : Nat) : Nat :=
  let q := a / b
  let r := a % b
  if 2 * r < b then q else if b < 2 * r then q + 1 else if q % 2 = 0 then q else q + 1

/-! ## Data model -/

/-- Values of the `status` column of `requests` written by src/bot.py. -/
inductive ReqStatus
  | new
  | assigned
  | pendingConfirmation
  | completed
  deriving DecidableEq, Repr

/-- Values of the `status` column of `offers` written by src/bot.py. -/
inductive OfferStatus
  | sent
  | taken
  | skipped
  deriving DecidableEq, Repr

/-- Row of the `requests` table (src/database.py:103-113 plus the
`ensure_column` additions of src/database.py:174-180). -/
structure Request where
  id : Nat
  category : String
  clientUserId : String
  status : ReqStatus
  masterId : Option Nat
  reviewRequested : Bool
  createdAt : Int
  completedAt : Option Int
  deriving DecidableEq, Repr

/-- Row of the `masters` table (src/database.py:115-133 plus the
`ensure_column` additions of src/database.py:182-198). -/
structure Master where
  id : Nat
  contact : String
  level : String
  categoriesAuto : String
  isActive : Bool
  subUntil : Option Int
  priorityUntil : Option Int
  pinUntil : Option Int
  freeOrdersLeft : Int
  ordersCompleted : Nat
  skillTier : String
  avgRatingTenths : Int
  reviewsCount : Nat
  deriving DecidableEq, Repr

/-- Row of the `offers` table (src/database.py:142-149). -/
structure Offer where
  requestId : Nat
  masterId : Nat
  status : OfferStatus
  deriving DecidableEq, Repr

/-- Row of the `reviews` table (src/database.py:151-162).  The schema
declares no uniqueness constraint on `request_id`. -/
structure Review where
  requestId : Nat
  masterId : Nat
  clientId : String
  rating : Nat
  comment : Option String
  deriving DecidableEq, Repr

/-- The persistent store.  `nextRequestId` / `nextMasterId` embed the
AUTOINCREMENT primary keys. -/
structure DB where
  requests : List Request
  masters : List Master
  offers : List Offer
  reviews : List Review
  nextRequestId : Nat
  nextMasterId : Nat
  deriving DecidableEq, Repr

def findRequest (s : DB) (rid : Nat) : Option Request :=
  s.requests.find? (fun r => r.id == rid)

def findMaster (s : DB) (mid : Nat) : Option Master :=
  s.masters.find? (fun m => m.id == mid)

/-- Embeds `SELECT ... FROM masters WHERE contact = ?` with `fetch_one`. -/
def findMasterByContact (s : DB) (contact : String) : Option Master :=
  s.masters.find? (fun m => m.contact == contact)

def mapRequests (s : DB) (f : Request → Request) : DB :=
  { s with requests := s.requests.map f }

def mapMasters (s : DB) (f : Master → Master) : DB :=
  { s with masters := s.masters.map f }

/-- Embeds `UPDATE requests SET ... WHERE id = ?`. -/
def updateRequest (s : DB) (rid : Nat) (f : Request → Request) : DB :=
  mapRequests s (fun r => if r.id == rid then f r else r)

/-- Embeds `UPDATE masters SET ... WHERE id = ?`. -/
def updateMaster (s : DB) (mid : Nat) (f : Master → Master) : DB :=
  mapMasters s (fun m => if m.id == mid then f m else m)

/-- Embeds `UPDATE offers SET status=? WHERE request_id=? AND master_id=?`
(src/bot.py:2658 and src/bot.py:2739): no guard on the current status. -/
def updateOffers (s : DB) (rid mid : Nat) (st : OfferStatus) : DB :=
  { s with offers := s.offers.map (fun o =>
      if o.requestId == rid && o.masterId == mid then { o with status := st } else o) }

/-- Embeds `is_active` (src/bot.py:121-126): a grant is active iff the
timestamp is present, parsable and strictly in the future. -/
def isActiveAt (untilTs : Option Int) (now : Int) : Bool :=
  match untilTs with
  | none => false
  | some t => now < t

def statusOf (s : DB) (rid : Nat) : Option ReqStatus :=
  (findRequest s rid).map (fun r => r.status)

def offerStatusBetween (s : DB) (rid mid : Nat) : List OfferStatus :=
  (s.offers.filter (fun o => o.requestId == rid && o.masterId == mid)).map (fun o => o.status)

def takenCount (s : DB) (rid : Nat) : Nat :=
  (s.offers.filter (fun o => o.requestId == rid && o.status == OfferStatus.taken)).length

/-! ## Offer broadcaster (`send_to_masters`, src/bot.py:2554-2637) -/

/-- Embeds `cat_match` (src/bot.py:2563-2580). -/
def cat_match (cats_auto : String) (request_category : String) : Bool :=
  if cats_auto.data.isEmpty then false
  else
    let clean_request := cleanStr request_category.data
    let master_cats := (splitOnChar ',' cats_auto.data).filterMap (fun cat =>
      let main_cat := trimChars ((splitOnChar '/' cat).headD [])
      let clean_cat := cleanStr main_cat
      if clean_cat.isEmpty then none else some clean_cat)
    master_cats.any (fun mc => containsSub clean_request mc || containsSub mc clean_request)

/-- Embeds the level-rank table of `sort_key` (src/bot.py:2589). -/
def lvl_rank (level : String) : Nat :=
  if level == "ТОП" then 3
  else if level == "Верифицированный" then 2
  else if level == "Проверенный" then 1
  else 0

/-- Embeds `sort_key` (src/bot.py:2585-2590).  The Python key is the
negated triple fed to an ascending stable sort; here the positive triple
is fed to a descending stable sort. -/
def sort_key (now : Int) (m : Master) : Nat × Nat × Nat :=
  ((if isActiveAt m.priorityUntil now then 1 else 0),
   (if isActiveAt m.subUntil now then 1 else 0),
   lvl_rank m.level)

/-- Strict lexicographic comparison of sort keys. -/
def keyLtb (a b : Nat × Nat × Nat) : Bool :=
  if a.1 < b.1 then true
  else if b.1 < a.1 then false
  else if a.2.1 < b.2.1 then true
  else if b.2.1 < a.2.1 then false
  else decide (a.2.2 < b.2.2)

/-- Stable descending insertion: a later element passes earlier elements
only while its key is strictly greater, so equal keys keep fetch order —
exactly the tie behaviour of Python's stable `sorted`. -/
def insertDesc {α : Type} (key : α → Nat × Nat × Nat) (x : α) : List α → List α
  | [] => [x]
  | y :: ys => if keyLtb (key x) (key y) then y :: insertDesc key x ys else x :: y :: ys

/-- Stable sort, descending by `key`: the embedding of
`sorted(rows, key=sort_key)` at src/bot.py:2592. -/
def sortDesc {α : Type} (key : α → Nat × Nat × Nat) : List α → List α
  | [] => []
  | x :: xs => insertDesc key x (sortDesc key xs)

/-- The `is_active=1` fetch (src/bot.py:2556-2560) followed by the
category filter (src/bot.py:2582). -/
def eligibleMasters (s : DB) (category : String) : List Master :=
  (s.masters.filter (fun m => m.isActive)).filter
    (fun m => cat_match m.categoriesAuto category)

/-- Ranking and truncation `sorted(rows, key=sort_key)[:5]`
(src/bot.py:2592). -/
def selectMasters (s : DB) (category : String) (now : Int) : List Master :=
  (sortDesc (sort_key now) (eligibleMasters s category)).take 5

/-- The delivery loop (src/bot.py:2615-2637): one Offer row with status
`sent` per selected master; a delivery failure classified as blocked
deactivates the master.  `blocked` lists the master ids whose delivery
fails that way. -/
def broadcastLoop (requestId : Nat) (blocked : List Nat) : DB → List Master → DB
  | s, [] => s
  | s, m :: rest =>
    let s1 : DB := { s with offers := s.offers ++ [⟨requestId, m.id, OfferStatus.sent⟩] }
    let s2 : DB :=
      if blocked.contains m.id then
        updateMaster s1 m.id (fun mm => { mm with isActive := false })
      else s1
    broadcastLoop requestId blocked s2 rest

def send_to_masters (s : DB) (requestId : Nat) (category : String)
    (blocked : List Nat) (now : Int) : DB :=
  broadcastLoop requestId blocked s (selectMasters s category now)

/-- Embeds `req_submit` (src/bot.py:1974-2005): insert the request with
status `new`, then broadcast it. -/
def submitRequest (s : DB) (category clientUserId : String)
    (blocked : List Nat) (now : Int) : DB :=
  let rid := s.nextRequestId
  let row : Request :=
    { id := rid, category := category, clientUserId := clientUserId,
      status := ReqStatus.new, masterId := none, reviewRequested := false,
      createdAt := now, completedAt := none }
  let s1 : DB := { s with requests := s.requests ++ [row], nextRequestId := rid + 1 }
  send_to_masters s1 rid category blocked now

/-- Embeds the master-profile insertions (src/bot.py:2233-2240 and
src/bot.py:2343-2353): level `Кандидат`, `FREE_ORDERS_START = 3` free
orders, tier `Новичок`, active, and the column defaults
`avg_rating = 5.0`, `reviews_count = 0` (src/database.py:182-183). -/
def registerMaster (s : DB) (contact cats_auto : String) : DB :=
  let mid := s.nextMasterId
  let row : Master :=
    { id := mid, contact := contact, level := "Кандидат",
      categoriesAuto := cats_auto, isActive := true, subUntil := none,
      priorityUntil := none, pinUntil := none, freeOrdersLeft := 3,
      ordersCompleted := 0, skillTier := "Новичок", avgRatingTenths := 50,
      reviewsCount := 0 }
  { s with masters := s.masters ++ [row], nextMasterId := mid + 1 }

/-! ## Skill tier and review aggregates -/

/-- The tier thresholds of `calc_skill_tier` (src/bot.py:259-264); also
the pure tier function the specification describes. -/
def tierForCount (n : Nat) : String :=
  if n < 20 then "Новичок" else if n < 50 then "Мастер" else "Профессионал"

/-- Embeds `calc_skill_tier` (src/bot.py:250-267): reads the CURRENT
`orders_completed` of the master; an unknown master yields `Новичок`.
A `none` id embeds `WHERE id = NULL`, which matches no row. -/
def calc_skill_tier (s : DB) (masterId : Option Nat) : String :=
  match masterId.bind (findMaster s) with
  | none => "Новичок"
  | some m => tierForCount m.ordersCompleted

/-- Ratings of all Review rows of one master, in insertion order. -/
def masterRatings (s : DB) (mid : Nat) : List Nat :=
  (s.reviews.filter (fun rv => rv.masterId == mid)).map (fun rv => rv.rating)

/-- Embeds `update_master_stats` (src/bot.py:399-430): recompute
`avg_rating` (mean rounded to one decimal, stored in tenths) and
`reviews_count` from the Review rows — but only when at least one
review exists (src/bot.py:416). -/
def update_master_stats (s : DB) (masterId : Nat) : DB :=
  let ratings := masterRatings s masterId
  if 0 < ratings.length then
    updateMaster s masterId (fun m =>
      { m with
        avgRatingTenths := Int.ofNat (roundHalfEvenDiv (10 * ratings.sum) ratings.length),
        reviewsCount := ratings.length })
  else s

/-- Embeds `request_review` (src/bot.py:337-397): skip if the one-shot
flag is set or a Review row already exists, otherwise set the flag and
send the prompt (the returned Bool). -/
def request_review (s : DB) (requestId : Nat) : DB × Bool :=
  let alreadyRequested :=
    match findRequest s requestId with
    | some req => req.reviewRequested
    | none => false
  if alreadyRequested then (s, false)
  else if s.reviews.any (fun rv => rv.requestId == requestId) then (s, false)
  else (updateRequest s requestId (fun r => { r with reviewRequested := true }), true)

/-- Embeds `mark_request_completed` (src/bot.py:445-489): set status
`completed` unconditionally, run `request_review`, then increment
`orders_completed` and persist the tier `calc_skill_tier` computed from
the PRE-increment count (the Python argument is evaluated before the
UPDATE runs). -/
def mark_request_completed (s : DB) (requestId : Nat) (now : Int) : DB × Bool :=
  match findRequest s requestId with
  | none => (s, false)
  | some req =>
    let s1 := updateRequest s requestId
      (fun r => { r with status := ReqStatus.completed, completedAt := some now })
    let s2 := (request_review s1 requestId).1
    let tier := calc_skill_tier s2 req.masterId
    let s3 :=
      match req.masterId with
      | some mid => updateMaster s2 mid
          (fun m => { m with ordersCompleted := m.ordersCompleted + 1, skillTier := tier })
      | none => s2
    (s3, true)

/-- Embeds `process_rating` (src/bot.py:966-1012): insert a Review row
unconditionally, then recompute the master's aggregates.  A request with
no assigned master embeds the NOT NULL violation of `master_id`, which
`DatabaseManager.execute` swallows: no row is inserted and
`update_master_stats` over NULL matches nothing. -/
def process_rating (s : DB) (clientId : String) (requestId rating : Nat) : DB × Bool :=
  match findRequest s requestId with
  | none => (s, false)
  | some req =>
    match req.masterId with
    | none => (s, true)
    | some mid =>
      let s1 : DB := { s with reviews := s.reviews ++ [⟨requestId, mid, clientId, rating, none⟩] }
      (update_master_stats s1 mid, true)

/-! ## Offer resolution (`offer_actions`, src/bot.py:2640-2741) -/

inductive TakeOutcome
  | rateLimited
  | notFound
  | authError
  | alreadyTaken
  | masterNotFound
  | quotaExhausted
  | accepted
  deriving DecidableEq, Repr

/-- Failure oracle for the three mutating statements of the take path.
`DatabaseManager.execute` (src/database.py:21-30) runs each statement in
its own committed transaction and catches every error, returning `None`
that the caller ignores — a failed statement leaves the store unchanged
and the handler continues. -/
structure ExecFail where
  debit : Bool
  assign : Bool
  markTaken : Bool
  deriving DecidableEq, Repr

def tryExec (failed : Bool) (s sNew : DB) : DB := if failed then s else sNew

def noFail : ExecFail := ⟨false, false, false⟩

/-- Embeds the `take` branch of `offer_actions` (src/bot.py:2661-2741)
under the failure oracle: rate limit, request fetch, ownership check,
single-winner gate on `status='new'`, entitlement check with debit, then
the three mutations in source order (debit, assign, mark offer taken). -/
def offerTakeF (fail : ExecFail) (s : DB) (caller : String) (reqId masterId : Nat)
    (now : Int) (rateOk : Bool) : DB × TakeOutcome :=
  if !rateOk then (s, TakeOutcome.rateLimited)
  else
    match findRequest s reqId with
    | none => (s, TakeOutcome.notFound)
    | some req =>
      match findMasterByContact s caller with
      | none => (s, TakeOutcome.authError)
      | some cm =>
        if cm.id != masterId then (s, TakeOutcome.authError)
        else if req.status != ReqStatus.new then (s, TakeOutcome.alreadyTaken)
        else
          match findMaster s masterId with
          | none => (s, TakeOutcome.masterNotFound)
          | some m =>
            if isActiveAt m.subUntil now then
              let s2 := tryExec fail.assign s (updateRequest s reqId
                (fun r => { r with status := ReqStatus.assigned, masterId := some masterId }))
              let s3 := tryExec fail.markTaken s2 (updateOffers s2 reqId masterId OfferStatus.taken)
              (s3, TakeOutcome.accepted)
            else if 0 < m.freeOrdersLeft then
              let s1 := tryExec fail.debit s (updateMaster s masterId
                (fun mm => { mm with freeOrdersLeft := mm.freeOrdersLeft - 1 }))
              let s2 := tryExec fail.assign s1 (updateRequest s1 reqId
                (fun r => { r with status := ReqStatus.assigned, masterId := some masterId }))
              let s3 := tryExec fail.markTaken s2 (updateOffers s2 reqId masterId OfferStatus.taken)
              (s3, TakeOutcome.accepted)
            else (s, TakeOutcome.quotaExhausted)

/-- The failure-free take action. -/
def offerTake (s : DB) (caller : String) (reqId masterId : Nat)
    (now : Int) (rateOk : Bool) : DB × TakeOutcome :=
  offerTakeF noFail s caller reqId masterId now rateOk

inductive SkipOutcome
  | rateLimited
  | notFound
  | skipped
  deriving DecidableEq, Repr

/-- Embeds the `skip` branch of `offer_actions` (src/bot.py:2651-2659):
no ownership check, no status guard — the offer rows of the pair are
overwritten to `skipped` whatever they held. -/
def offerSkip (s : DB) (reqId masterId : Nat) (rateOk : Bool) : DB × SkipOutcome :=
  if !rateOk then (s, SkipOutcome.rateLimited)
  else
    match findRequest s reqId with
    | none => (s, SkipOutcome.notFound)
    | some _ => (updateOffers s reqId masterId OfferStatus.skipped, SkipOutcome.skipped)

/-! ## Order lifecycle handlers -/

inductive DoneOutcome
  | notFoundOrNotOwner
  | alreadyCompleted
  | waitingClient
  | marked
  deriving DecidableEq, Repr

/-- Embeds `complete_order` (src/bot.py:1070-1134): the master marks the
order done; rejected idempotently when already `completed` or already
`pending_confirmation`. -/
def complete_order (s : DB) (caller : String) (requestId : Nat) : DB × DoneOutcome :=
  match findMasterByContact s caller, findRequest s requestId with
  | some cm, some req =>
    if req.masterId == some cm.id then
      if req.status == ReqStatus.completed then (s, DoneOutcome.alreadyCompleted)
      else if req.status == ReqStatus.pendingConfirmation then (s, DoneOutcome.waitingClient)
      else (updateRequest s requestId
        (fun r => { r with status := ReqStatus.pendingConfirmation }), DoneOutcome.marked)
    else (s, DoneOutcome.notFoundOrNotOwner)
  | _, _ => (s, DoneOutcome.notFoundOrNotOwner)

inductive ConfirmOutcome
  | notFound
  | alreadyCompleted
  | confirmedDone
  | confirmFailed
  | disputed
  deriving DecidableEq, Repr

/-- Embeds `client_confirmation` (src/bot.py:1136-1211): the only status
guard is against an already `completed` request; `yes` runs
`mark_request_completed`, `no` regresses the status to `assigned`. -/
def client_confirmation (s : DB) (requestId : Nat) (yes : Bool) (now : Int) :
    DB × ConfirmOutcome :=
  match findRequest s requestId with
  | none => (s, ConfirmOutcome.notFound)
  | some req =>
    if req.status == ReqStatus.completed then (s, ConfirmOutcome.alreadyCompleted)
    else if yes then
      let r := mark_request_completed s requestId now
      (r.1, if r.2 then ConfirmOutcome.confirmedDone else ConfirmOutcome.confirmFailed)
    else (updateRequest s requestId
      (fun r => { r with status := ReqStatus.assigned }), ConfirmOutcome.disputed)

/-- Embeds the auto-complete duty of `periodic_cleanup`
(src/bot.py:2840-2872): every request in `pending_confirmation` whose
`created_at` is more than 24 hours old is completed via
`mark_request_completed`. -/
def sweepAutoComplete (s : DB) (now : Int) : DB :=
  let pending := s.requests.filter
    (fun r => r.status == ReqStatus.pendingConfirmation && r.createdAt + 86400 < now)
  pending.foldl (fun acc r => (mark_request_completed acc r.id now).1) s

/-! ## Entitlement grants (`on_success_payment`, src/bot.py:2540-2551) -/

inductive PayKind
  | subscription
  | priorityBoost
  | pinBoost
  deriving DecidableEq, Repr

def grantDays : PayKind → Int
  | PayKind.subscription => 30
  | PayKind.priorityBoost => 30
  | PayKind.pinBoost => 7

/-- Each grant replaces the expiry with `now + duration`; the UPDATE
keys on `contact`. -/
def applyPayment (s : DB) (contact : String) (k : PayKind) (now : Int) : DB :=
  let untilTs := now + grantDays k * 86400
  mapMasters s (fun m =>
    if m.contact == contact then
      match k with
      | PayKind.subscription => { m with subUntil := some untilTs }
      | PayKind.priorityBoost => { m with priorityUntil := some untilTs }
      | PayKind.pinBoost => { m with pinUntil := some untilTs }
    else m)

/-! ## Event system -/

/-- One handler invocation against the store.  Callback events carry the
caller identity exactly when the handler reads it. -/
inductive Event
  | submitReq (category clientUserId : String) (blocked : List Nat) (now : Int)
  | register (contact cats_auto : String)
  | take (caller : String) (reqId masterId : Nat) (now : Int) (rateOk : Bool)
  | skipOffer (reqId masterId : Nat) (rateOk : Bool)
  | markDone (caller : String) (reqId : Nat)
  | confirm (reqId : Nat) (yes : Bool) (now : Int)
  | rate (clientId : String) (reqId rating : Nat)
  | pay (contact : String) (k : PayKind) (now : Int)
  | sweep (now : Int)

def step (s : DB) : Event → DB
  | Event.submitReq category clientUserId blocked now => submitRequest s category clientUserId blocked now
  | Event.register contact cats_auto => registerMaster s contact cats_auto
  | Event.take caller reqId masterId now rateOk => (offerTake s caller reqId masterId now rateOk).1
  | Event.skipOffer reqId masterId rateOk => (offerSkip s reqId masterId rateOk).1
  | Event.markDone caller reqId => (complete_order s caller reqId).1
  | Event.confirm reqId yes now => (client_confirmation s reqId yes now).1
  | Event.rate clientId reqId rating => (process_rating s clientId reqId rating).1
  | Event.pay contact k now => applyPayment s contact k now
  | Event.sweep now => sweepAutoComplete s now

def run : DB → List Event → DB
  | s, [] => s
  | s, e :: tr => run (step s e) tr

/-- The freshly initialised store (`init_database`, src/database.py:100). -/
def initDB : DB :=
  { requests := [], masters := [], offers := [], reviews := [],
    nextRequestId := 1, nextMasterId := 1 }

def Reachable (s : DB) : Prop := ∃ tr : List Event, run initDB tr = s

/-! ## Component projection lemmas -/

theorem mapRequests_masters (s : DB) (f : Request → Request) :
    (mapRequests s f).masters = s.masters := rfl

theorem mapRequests_offers (s : DB) (f : Request → Request) :
    (mapRequests s f).offers = s.offers := rfl

theorem mapRequests_reviews (s : DB) (f : Request → Request) :
    (mapRequests s f).reviews = s.reviews := rfl

theorem mapMasters_requests (s : DB) (f : Master → Master) :
    (mapMasters s f).requests = s.requests := rfl

theorem mapMasters_offers (s : DB) (f : Master → Master) :
    (mapMasters s f).offers = s.offers := rfl

theorem mapMasters_reviews (s : DB) (f : Master → Master) :
    (mapMasters s f).reviews = s.reviews := rfl

theorem updateOffers_masters (s : DB) (rid mid : Nat) (st : OfferStatus) :
    (updateOffers s rid mid st).masters = s.masters := rfl

theorem updateOffers_requests (s : DB) (rid mid : Nat) (st : OfferStatus) :
    (updateOffers s rid mid st).requests = s.requests := rfl

theorem updateOffers_reviews (s : DB) (rid mid : Nat) (st : OfferStatus) :
    (updateOffers s rid mid st).reviews = s.reviews := rfl

theorem request_review_masters (s : DB) (rid : Nat) :
    ((request_review s rid).1).masters = s.masters := by
  unfold request_review
  dsimp only
  split_ifs <;> rfl

theorem request_review_reviews (s : DB) (rid : Nat) :
    ((request_review s rid).1).reviews = s.reviews := by
  unfold request_review
  dsimp only
  split_ifs <;> rfl

theorem update_master_stats_requests (s : DB) (mid : Nat) :
    (update_master_stats s mid).requests = s.requests := by
  unfold update_master_stats
  dsimp only
  split_ifs <;> rfl

theorem update_master_stats_reviews (s : DB) (mid : Nat) :
    (update_master_stats s mid).reviews = s.reviews := by
  unfold update_master_stats
  dsimp only
  split_ifs <;> rfl

theorem findMaster_congr {s1 s2 : DB} (mid : Nat) (h : s1.masters = s2.masters) :
    findMaster s1 mid = findMaster s2 mid := by
  unfold findMaster
  rw [h]

/-! ## Shared demonstration fixtures -/

/-- A minimal master row, as inserted by the registration flow. -/
def demoMaster : Master :=
  { id := 1, contact := "m1", level := "Кандидат", categoriesAuto := "Ремонт",
    isActive := true, subUntil := none, priorityUntil := none, pinUntil := none,
    freeOrdersLeft := 3, ordersCompleted := 0, skillTier := "Новичок",
    avgRatingTenths := 50, reviewsCount := 0 }

/-- A minimal request row, as inserted by the request flow. -/
def demoRequest : Request :=
  { id := 1, category := "Ремонт", clientUserId := "c1", status := ReqStatus.new,
    masterId := none, reviewRequested := false, createdAt := 0, completedAt := none }

/-- Register one master, submit one matching request, have the master
claim it: the canonical happy-path prefix used by several scenarios. -/
def demoTrace3 : List Event :=
  [Event.register "m1" "Ремонт",
   Event.submitReq "Ремонт" "c1" [] 0,
   Event.take "m1" 1 1 0 true]

/-! ## Claim theorems -/

/-- C1: a take action on a request whose status is not `new`, issued by
the master the offer belongs to and within the rate limit, is answered
with the "already taken" alert and leaves the whole store — request
rows, offer rows and master rows included — unchanged. -/
theorem take_nonNew_rejected_no_mutation (s : DB) (caller : String)
    (reqId masterId : Nat) (now : Int) (req : Request) (cm : Master)
    (hreq : findRequest s reqId = some req)
    (hcm : findMasterByContact s caller = some cm)
    (hown : cm.id = masterId)
    (hst : req.status ≠ ReqStatus.new) :
    offerTake s caller reqId masterId now true = (s, TakeOutcome.alreadyTaken) := by
  unfold offerTake offerTakeF
  simp [hreq, hcm, hown, hst]

/-- C1 witness: an assigned request, claimed again by its own master. -/
def c1db : DB :=
  { requests := [{ demoRequest with status := ReqStatus.assigned, masterId := some 1 }],
    masters := [demoMaster], offers := [⟨1, 1, OfferStatus.taken⟩], reviews := [],
    nextRequestId := 2, nextMasterId := 2 }

theorem take_nonNew_rejected_no_mutation_witness :
    offerTake c1db "m1" 1 1 0 true = (c1db, TakeOutcome.alreadyTaken) :=
  take_nonNew_rejected_no_mutation c1db "m1" 1 1 0
    { demoRequest with status := ReqStatus.assigned, masterId := some 1 }
    demoMaster (by decide) (by decide) (by decide) (by decide)

/-- C10: when a master has zero Review rows, `update_master_stats` is the
identity on the store — `avg_rating` and `reviews_count` keep whatever
they held; and the registration flow creates masters with the column
defaults `avg_rating = 5.0` (50 tenths) and `reviews_count = 0`. -/
theorem stats_update_empty_reviews_frame (s : DB) (mid : Nat)
    (h : masterRatings s mid = []) :
    update_master_stats s mid = s ∧
    ∀ contact cats : String,
      (registerMaster s contact cats).masters.map
          (fun m => (m.avgRatingTenths, m.reviewsCount)) =
        s.masters.map (fun m => (m.avgRatingTenths, m.reviewsCount)) ++ [(50, 0)] := by
  constructor
  · unfold update_master_stats
    rw [h]
    rfl
  · intro contact cats
    unfold registerMaster
    simp

def c10db : DB :=
  { requests := [], masters := [demoMaster], offers := [], reviews := [],
    nextRequestId := 1, nextMasterId := 2 }

theorem stats_update_empty_reviews_frame_witness :
    update_master_stats c10db 1 = c10db :=
  (stats_update_empty_reviews_frame c10db 1 (by decide)).1

theorem calc_skill_tier_congr {s1 s2 : DB} (o : Option Nat) (h : s1.masters = s2.masters) :
    calc_skill_tier s1 o = calc_skill_tier s2 o := by
  cases o with
  | none => rfl
  | some mid => simp [calc_skill_tier, findMaster, h]

/-- Masters after `mark_request_completed`: the assigned master's counter
is incremented and the tier recorded is `calc_skill_tier` of the
pre-update store. -/
theorem mark_request_completed_masters (s : DB) (rid : Nat) (now : Int) (req : Request)
    (hreq : findRequest s rid = some req) :
    (mark_request_completed s rid now).1.masters =
      match req.masterId with
      | some mid =>
        s.masters.map (fun mm => if mm.id == mid then
          { mm with ordersCompleted := mm.ordersCompleted + 1,
                    skillTier := calc_skill_tier s req.masterId } else mm)
      | none => s.masters := by
  unfold mark_request_completed
  rw [hreq]
  dsimp only
  have hmast : ((request_review (updateRequest s rid
      (fun r => { r with status := ReqStatus.completed, completedAt := some now })) rid).1).masters
      = s.masters := by
    rw [request_review_masters]
    rfl
  cases hmid : req.masterId with
  | none => simpa using hmast
  | some mid =>
    dsimp only
    rw [calc_skill_tier_congr (some mid) hmast, ← hmid]
    simp [updateMaster, mapMasters, hmast]

/-- C7 counterexample fixture: an assigned request whose master has 19
completed orders. -/
def c7db : DB :=
  { requests := [{ demoRequest with status := ReqStatus.assigned, masterId := some 1 }],
    masters := [{ demoMaster with ordersCompleted := 19 }],
    offers := [], reviews := [], nextRequestId := 2, nextMasterId := 2 }

/-- C7 counterexample: completing the 20th order increments the count to
20 but persists the tier of the pre-increment count (`Новичок`), while
the tier function of the post-increment count gives `Мастер`. -/
theorem tier_not_of_incremented_count :
    ((mark_request_completed c7db 1 0).1.masters.map
        (fun m => (m.ordersCompleted, m.skillTier)) = [(20, "Новичок")]) ∧
    tierForCount 20 = "Мастер" ∧
    ¬ ((mark_request_completed c7db 1 0).1.masters.map (fun m => m.skillTier)
        = [tierForCount 20]) := by decide

/-- C7 amended: every completion increments the assigned master's
orders_completed by exactly 1 and persists the skill tier computed from
the count BEFORE the increment (`calc_skill_tier` is evaluated before the
UPDATE runs); away from the 20 and 50 thresholds this coincides with the
tier of the post-increment count. -/
theorem completion_increment_and_pre_tier (s : DB) (rid : Nat) (now : Int)
    (req : Request) (mid : Nat) (m : Master)
    (hreq : findRequest s rid = some req)
    (hmid : req.masterId = some mid)
    (hm : findMaster s mid = some m) :
    (mark_request_completed s rid now).2 = true ∧
    (mark_request_completed s rid now).1.masters =
      s.masters.map (fun mm => if mm.id == mid then
        { mm with ordersCompleted := mm.ordersCompleted + 1,
                  skillTier := tierForCount m.ordersCompleted } else mm) := by
  constructor
  · unfold mark_request_completed
    rw [hreq]
  · rw [mark_request_completed_masters s rid now req hreq, hmid]
    dsimp only
    simp [calc_skill_tier, hm]

def c7wdb : DB :=
  { requests := [{ demoRequest with status := ReqStatus.assigned, masterId := some 1 }],
    masters := [demoMaster], offers := [], reviews := [],
    nextRequestId := 2, nextMasterId := 2 }

theorem completion_increment_and_pre_tier_witness :
    (mark_request_completed c7wdb 1 0).2 = true ∧
    (mark_request_completed c7wdb 1 0).1.masters =
      c7wdb.masters.map (fun mm => if mm.id == 1 then
        { mm with ordersCompleted := mm.ordersCompleted + 1,
                  skillTier := tierForCount demoMaster.ordersCompleted } else mm) :=
  completion_increment_and_pre_tier c7wdb 1 0
    { demoRequest with status := ReqStatus.assigned, masterId := some 1 }
    1 demoMaster (by decide) (by decide) (by decide)

/-- C9 counterexample trace: happy path, confirm, one rating, then a
second rating for the same request. -/
def c9trace : List Event :=
  demoTrace3 ++ [Event.markDone "m1" 1, Event.confirm 1 true 0, Event.rate "c1" 1 5]

/-- C9 counterexample: after one submitted rating request 1 already has a
Review row; a second star rating for the same request inserts a second
row. -/
theorem second_rating_inserts_second_row :
    ((run initDB c9trace).reviews.filter (fun rv => rv.requestId == 1)).length = 1 ∧
    ((run initDB (c9trace ++ [Event.rate "c1" 1 4])).reviews.filter
        (fun rv => rv.requestId == 1)).length = 2 := by decide

/-- C9 amended: `process_rating` appends a Review row unconditionally
whenever the request exists and has an assigned master — existing Review
rows for the request do not stop the insertion (the schema has no
uniqueness constraint on request_id); only the review PROMPT is
idempotent: `request_review` sends nothing when a Review row already
exists. -/
theorem rating_insert_unconditional (s : DB) (clientId : String) (rid rating : Nat)
    (req : Request) (mid : Nat)
    (hreq : findRequest s rid = some req)
    (hmid : req.masterId = some mid) :
    ((process_rating s clientId rid rating).1.reviews
      = s.reviews ++ [⟨rid, mid, clientId, rating, none⟩]) ∧
    (∀ s2 : DB, s2.reviews.any (fun rv => rv.requestId == rid) = true →
      request_review s2 rid = (s2, false)) := by
  constructor
  · unfold process_rating
    rw [hreq]
    dsimp only
    rw [hmid]
    dsimp only
    rw [update_master_stats_reviews]
  · intro s2 hany
    unfold request_review
    dsimp only
    rw [hany]
    split_ifs with h1 h2
    · rfl
    · rfl
    · exact absurd rfl h2

def c9req : Request :=
  { demoRequest with
    status := ReqStatus.completed,
    masterId := some 1,
    reviewRequested := true }

def c9wdb : DB :=
  { requests := [c9req],
    masters := [demoMaster], offers := [],
    reviews := [⟨1, 1, "c1", 5, none⟩],
    nextRequestId := 2, nextMasterId := 2 }

theorem rating_insert_unconditional_witness :
    ((process_rating c9wdb "c1" 1 4).1.reviews
      = c9wdb.reviews ++ [⟨1, 1, "c1", 4, none⟩]) ∧
    (∀ s2 : DB, s2.reviews.any (fun rv => rv.requestId == 1) = true →
      request_review s2 1 = (s2, false)) :=
  rating_insert_unconditional c9wdb "c1" 1 4 c9req 1 (by decide) (by decide)

/-- C3 counterexample fixture: a fresh request offered to master 1. -/
def c3db : DB :=
  { requests := [demoRequest], masters := [demoMaster],
    offers := [⟨1, 1, OfferStatus.sent⟩], reviews := [],
    nextRequestId := 2, nextMasterId := 2 }

/-- C3 counterexample: with the `UPDATE requests` statement failing (and
the offer update failing too), the debit is committed
(`free_orders_left` 3 → 2) while the request stays `new`, and the
operation still reports acceptance — neither "both or neither" nor
"surfaced as a failed operation" holds. -/
theorem debit_commits_without_assignment :
    (offerTakeF ⟨false, true, true⟩ c3db "m1" 1 1 0 true).2 = TakeOutcome.accepted ∧
    ((offerTakeF ⟨false, true, true⟩ c3db "m1" 1 1 0 true).1.masters.map
        (fun m => m.freeOrdersLeft) = [2]) ∧
    statusOf (offerTakeF ⟨false, true, true⟩ c3db "m1" 1 1 0 true).1 1
      = some ReqStatus.new ∧
    ¬ ((offerTakeF ⟨false, true, true⟩ c3db "m1" 1 1 0 true).1 = c3db) := by decide

/-- C3 amended: the debit, the assignment and the offer update are three
separate auto-committed statements whose errors `DatabaseManager.execute`
catches and the handler ignores: each statement commits independently of
the others' failures, and the claim is reported accepted regardless. -/
theorem take_statements_commit_independently (fail : ExecFail) (s : DB)
    (caller : String) (reqId masterId : Nat) (now : Int)
    (req : Request) (cm : Master) (m : Master)
    (hreq : findRequest s reqId = some req)
    (hcm : findMasterByContact s caller = some cm)
    (hown : cm.id = masterId)
    (hst : req.status = ReqStatus.new)
    (hm : findMaster s masterId = some m)
    (hsub : isActiveAt m.subUntil now = false)
    (hfree : 0 < m.freeOrdersLeft) :
    (offerTakeF fail s caller reqId masterId now true).2 = TakeOutcome.accepted ∧
    (offerTakeF fail s caller reqId masterId now true).1.masters =
      (if fail.debit then s.masters else
        (updateMaster s masterId
          (fun mm => { mm with freeOrdersLeft := mm.freeOrdersLeft - 1 })).masters) ∧
    (offerTakeF fail s caller reqId masterId now true).1.requests =
      (if fail.assign then s.requests else
        (updateRequest s reqId
          (fun r => { r with status := ReqStatus.assigned,
                             masterId := some masterId })).requests) ∧
    (offerTakeF fail s caller reqId masterId now true).1.offers =
      (if fail.markTaken then s.offers else
        (updateOffers s reqId masterId OfferStatus.taken).offers) := by
  rcases fail with ⟨fd, fa, fm⟩
  unfold offerTakeF tryExec
  simp only [hreq, hcm, hown, hst, hm, hsub, hfree]
  cases fd <;> cases fa <;> cases fm <;>
    simp [updateRequest, updateMaster, updateOffers, mapRequests, mapMasters]

theorem take_statements_commit_independently_witness :
    (offerTakeF ⟨true, false, false⟩ c3db "m1" 1 1 0 true).2 = TakeOutcome.accepted ∧
    (offerTakeF ⟨true, false, false⟩ c3db "m1" 1 1 0 true).1.masters =
      (if (true : Bool) then c3db.masters else
        (updateMaster c3db 1
          (fun mm => { mm with freeOrdersLeft := mm.freeOrdersLeft - 1 })).masters) ∧
    (offerTakeF ⟨true, false, false⟩ c3db "m1" 1 1 0 true).1.requests =
      (if (false : Bool) then c3db.requests else
        (updateRequest c3db 1
          (fun r => { r with status := ReqStatus.assigned,
                             masterId := some 1 })).requests) ∧
    (offerTakeF ⟨true, false, false⟩ c3db "m1" 1 1 0 true).1.offers =
      (if (false : Bool) then c3db.offers else
        (updateOffers c3db 1 1 OfferStatus.taken).offers) :=
  take_statements_commit_independently ⟨true, false, false⟩ c3db "m1" 1 1 0
    demoRequest demoMaster demoMaster
    (by decide) (by decide) (by decide) (by decide) (by decide) (by decide) (by decide)

/-- C5 counterexample: after the claim, the pair's offer is resolved
`taken`; a later skip action on the same offer overwrites it to
`skipped`. -/
theorem resolved_offer_overwritten :
    offerStatusBetween (run initDB demoTrace3) 1 1 = [OfferStatus.taken] ∧
    offerStatusBetween (run initDB (demoTrace3 ++ [Event.skipOffer 1 1 true])) 1 1
      = [OfferStatus.skipped] := by decide

/-- C4 counterexample trace: happy path, master marks done, client
disputes (status back to `assigned`). -/
def c4trace : List Event :=
  demoTrace3 ++ [Event.markDone "m1" 1, Event.confirm 1 false 0]

/-- C4 counterexample: after a dispute the request is `assigned` again; a
subsequent confirm-yes moves it DIRECTLY from `assigned` to `completed` —
`client_confirmation` only guards against already-completed requests. -/
theorem completed_reached_from_assigned :
    statusOf (run initDB c4trace) 1 = some ReqStatus.assigned ∧
    statusOf (run initDB (c4trace ++ [Event.confirm 1 true 0])) 1
      = some ReqStatus.completed := by decide

/-! ## Stable-sort properties of the broadcaster ranking -/

theorem keyLtb_iff (a b : Nat × Nat × Nat) :
    keyLtb a b = true ↔
      (a.1 < b.1 ∨ (a.1 = b.1 ∧ (a.2.1 < b.2.1 ∨ (a.2.1 = b.2.1 ∧ a.2.2 < b.2.2)))) := by
  unfold keyLtb
  split_ifs with h1 h2 h3 h4 <;> simp <;> omega

theorem keyLtb_asymm {a b : Nat × Nat × Nat} (h : keyLtb a b = true) : keyLtb b a = false := by
  rcases Bool.eq_false_or_eq_true (keyLtb b a) with hba | hba
  · rw [keyLtb_iff] at h hba
    omega
  · exact hba

theorem keyLtb_false_trans {a b c : Nat × Nat × Nat}
    (h1 : keyLtb a b = false) (h2 : keyLtb b c = false) : keyLtb a c = false := by
  rcases Bool.eq_false_or_eq_true (keyLtb a c) with hac | hac
  · have n1 : ¬ (a.1 < b.1 ∨ (a.1 = b.1 ∧ (a.2.1 < b.2.1 ∨ (a.2.1 = b.2.1 ∧ a.2.2 < b.2.2)))) := by
      intro hl
      have hb := (keyLtb_iff a b).mpr hl
      rw [h1] at hb
      exact Bool.false_ne_true hb
    have n2 : ¬ (b.1 < c.1 ∨ (b.1 = c.1 ∧ (b.2.1 < c.2.1 ∨ (b.2.1 = c.2.1 ∧ b.2.2 < c.2.2)))) := by
      intro hl
      have hb := (keyLtb_iff b c).mpr hl
      rw [h2] at hb
      exact Bool.false_ne_true hb
    rw [keyLtb_iff] at hac
    omega
  · exact hac

theorem keyLtb_ne {a b : Nat × Nat × Nat} (h : keyLtb a b = true) : a ≠ b := by
  rintro rfl
  rw [keyLtb_iff] at h
  omega

theorem insertDesc_perm {α : Type} (key : α → Nat × Nat × Nat) (x : α) (l : List α) :
    (insertDesc key x l).Perm (x :: l) := by
  induction l with
  | nil => exact List.Perm.refl _
  | cons y ys ih =>
    unfold insertDesc
    split_ifs with h
    · exact (ih.cons y).trans (List.Perm.swap x y ys)
    · exact List.Perm.refl _

theorem sortDesc_perm {α : Type} (key : α → Nat × Nat × Nat) (l : List α) :
    (sortDesc key l).Perm l := by
  induction l with
  | nil => exact List.Perm.refl _
  | cons x xs ih =>
    unfold sortDesc
    exact (insertDesc_perm key x (sortDesc key xs)).trans (ih.cons x)

theorem insertDesc_pairwise {α : Type} (key : α → Nat × Nat × Nat) (x : α) {l : List α}
    (hl : l.Pairwise (fun a b => keyLtb (key a) (key b) = false)) :
    (insertDesc key x l).Pairwise (fun a b => keyLtb (key a) (key b) = false) := by
  induction l with
  | nil => simp [insertDesc]
  | cons y ys ih =>
    rcases List.pairwise_cons.mp hl with ⟨hy, hys⟩
    unfold insertDesc
    split_ifs with h
    · refine List.pairwise_cons.mpr ⟨?_, ih hys⟩
      intro z hz
      rcases List.mem_cons.mp ((insertDesc_perm key x ys).mem_iff.mp hz) with rfl | hz2
      · exact keyLtb_asymm h
      · exact hy z hz2
    · have h' : keyLtb (key x) (key y) = false := by simpa using h
      refine List.pairwise_cons.mpr ⟨?_, hl⟩
      intro z hz
      rcases List.mem_cons.mp hz with rfl | hz2
      · exact h'
      · exact keyLtb_false_trans h' (hy z hz2)

theorem sortDesc_pairwise {α : Type} (key : α → Nat × Nat × Nat) (l : List α) :
    (sortDesc key l).Pairwise (fun a b => keyLtb (key a) (key b) = false) := by
  induction l with
  | nil => simp [sortDesc]
  | cons x xs ih =>
    unfold sortDesc
    exact insertDesc_pairwise key x ih

theorem insertDesc_filter_key {α : Type} (key : α → Nat × Nat × Nat) (k : Nat × Nat × Nat)
    (x : α) (l : List α) :
    (insertDesc key x l).filter (fun a => key a == k)
      = (x :: l).filter (fun a => key a == k) := by
  induction l with
  | nil => rfl
  | cons y ys ih =>
    unfold insertDesc
    by_cases h : keyLtb (key x) (key y) = true
    · rw [if_pos h]
      by_cases hyk : key y = k
      · have hxk : key x ≠ k := fun hxk => (keyLtb_ne h) (hxk.trans hyk.symm)
        simp [List.filter_cons, hyk, hxk, ih]
      · simp [List.filter_cons, hyk, ih]
    · rw [if_neg h]

theorem sortDesc_filter_key {α : Type} (key : α → Nat × Nat × Nat) (k : Nat × Nat × Nat)
    (l : List α) :
    (sortDesc key l).filter (fun a => key a == k) = l.filter (fun a => key a == k) := by
  induction l with
  | nil => rfl
  | cons x xs ih =>
    unfold sortDesc
    rw [insertDesc_filter_key]
    simp [List.filter_cons, ih]

theorem broadcastLoop_offers (rid : Nat) (blocked : List Nat) (s : DB) (l : List Master) :
    (broadcastLoop rid blocked s l).offers
      = s.offers ++ l.map (fun m => ⟨rid, m.id, OfferStatus.sent⟩) := by
  induction l generalizing s with
  | nil => simp [broadcastLoop]
  | cons m rest ih =>
    unfold broadcastLoop
    dsimp only
    split_ifs with hb
    · rw [ih]
      simp [updateMaster, mapMasters]
    · rw [ih]
      simp

/-- C6: the broadcaster's contract.  Selected masters are active and
category-matched; a master with an empty category string never matches;
the ranking is a permutation of the eligible list, sorted descending by
the key (active priority, active subscription, level rank) with the
claimed level ranks, and stable (masters of equal key keep fetch order);
at most the top 5 are selected; and exactly one Offer row with status
`sent` is appended per selected master. -/
theorem broadcaster_contract (s : DB) (category : String) (now : Int)
    (blocked : List Nat) (requestId : Nat) :
    (∀ m ∈ selectMasters s category now,
      m.isActive = true ∧ cat_match m.categoriesAuto category = true ∧ m ∈ s.masters) ∧
    (∀ cat : String, cat_match "" cat = false) ∧
    (sortDesc (sort_key now) (eligibleMasters s category)).Perm (eligibleMasters s category) ∧
    ((sortDesc (sort_key now) (eligibleMasters s category)).Pairwise
      (fun a b => keyLtb (sort_key now a) (sort_key now b) = false)) ∧
    (∀ k : Nat × Nat × Nat,
      (sortDesc (sort_key now) (eligibleMasters s category)).filter
          (fun a => sort_key now a == k)
        = (eligibleMasters s category).filter (fun a => sort_key now a == k)) ∧
    (lvl_rank "Верифицированный" = 2 ∧ lvl_rank "Проверенный" = 1 ∧
      lvl_rank "Кандидат" = 0 ∧ lvl_rank "ТОП" = 3) ∧
    (selectMasters s category now).length ≤ 5 ∧
    ((send_to_masters s requestId category blocked now).offers
      = s.offers ++ (selectMasters s category now).map
          (fun m => ⟨requestId, m.id, OfferStatus.sent⟩)) := by
  refine ⟨?_, ?_, sortDesc_perm _ _, sortDesc_pairwise _ _, fun k => sortDesc_filter_key _ k _,
    ⟨by decide, by decide, by decide, by decide⟩, ?_, ?_⟩
  · intro m hm
    have h1 : m ∈ sortDesc (sort_key now) (eligibleMasters s category) :=
      List.mem_of_mem_take hm
    have h2 : m ∈ eligibleMasters s category := (sortDesc_perm _ _).mem_iff.mp h1
    unfold eligibleMasters at h2
    rcases List.mem_filter.mp h2 with ⟨h3, hcat⟩
    rcases List.mem_filter.mp h3 with ⟨hmem, hact⟩
    exact ⟨hact, hcat, hmem⟩
  · intro cat
    rfl
  · exact List.length_take_le 5 _
  · unfold send_to_masters
    exact broadcastLoop_offers requestId blocked s (selectMasters s category now)

def c6db : DB :=
  { requests := [], masters := [demoMaster], offers := [], reviews := [],
    nextRequestId := 1, nextMasterId := 2 }

/-! ## Generic list helpers for the reachability invariant -/

theorem find?_map_pred {α : Type} (p : α → Bool) (g : α → α) (l : List α)
    (hp : ∀ a, p (g a) = p a) :
    (l.map g).find? p = (l.find? p).map g := by
  induction l with
  | nil => rfl
  | cons a as ih =>
    by_cases h : p a = true
    · rw [List.map_cons, List.find?_cons_of_pos _ ((hp a).trans h),
        List.find?_cons_of_pos _ h]
      rfl
    · rw [List.map_cons, List.find?_cons_of_neg _ (by rw [hp]; exact h),
        List.find?_cons_of_neg _ h, ih]

theorem find?_append_some {α : Type} (p : α → Bool) (l1 l2 : List α) (a : α)
    (h : l1.find? p = some a) : (l1 ++ l2).find? p = some a := by
  induction l1 with
  | nil => cases h
  | cons b bs ih =>
    by_cases hb : p b = true
    · rw [List.find?_cons_of_pos _ hb] at h
      rw [List.cons_append, List.find?_cons_of_pos _ hb]
      exact h
    · rw [List.find?_cons_of_neg _ hb] at h
      rw [List.cons_append, List.find?_cons_of_neg _ hb]
      exact ih h

theorem find?_append_none {α : Type} (p : α → Bool) (l1 l2 : List α)
    (h : l1.find? p = none) : (l1 ++ l2).find? p = l2.find? p := by
  induction l1 with
  | nil => rfl
  | cons b bs ih =>
    by_cases hb : p b = true
    · rw [List.find?_cons_of_pos _ hb] at h
      cases h
    · rw [List.find?_cons_of_neg _ hb] at h
      rw [List.cons_append, List.find?_cons_of_neg _ hb]
      exact ih h

/-! ## Reachability invariant

The conjuncts formalise: AUTOINCREMENT freshness and uniqueness of the
primary keys, the at-most-one-offer-per-(request, master) shape produced
by the broadcaster, foreign-key bounds, non-negativity of the free-order
balance, derived review aggregates, and single-winner offers. -/

def reqIdsOk (s : DB) : Prop :=
  (s.requests.map (fun r => r.id)).Nodup ∧ ∀ r ∈ s.requests, r.id < s.nextRequestId

def masterIdsOk (s : DB) : Prop :=
  (s.masters.map (fun m => m.id)).Nodup ∧ ∀ m ∈ s.masters, m.id < s.nextMasterId

def offersOk (s : DB) : Prop :=
  (∀ o ∈ s.offers, o.requestId < s.nextRequestId) ∧
  s.offers.Pairwise (fun a b => a.requestId = b.requestId → a.masterId ≠ b.masterId)

def refsOk (s : DB) : Prop :=
  (∀ r ∈ s.requests, ∀ mid : Nat, r.masterId = some mid → mid < s.nextMasterId) ∧
  (∀ rv ∈ s.reviews, rv.masterId < s.nextMasterId)

def freeOk (s : DB) : Prop := ∀ m ∈ s.masters, 0 ≤ m.freeOrdersLeft

def statsOk (s : DB) : Prop :=
  ∀ m ∈ s.masters, masterRatings s m.id ≠ [] →
    m.avgRatingTenths
        = Int.ofNat (roundHalfEvenDiv (10 * (masterRatings s m.id).sum)
            (masterRatings s m.id).length) ∧
      m.reviewsCount = (masterRatings s m.id).length

def takenOk (s : DB) : Prop :=
  (∀ o ∈ s.offers, o.status = OfferStatus.taken →
    statusOf s o.requestId ≠ some ReqStatus.new) ∧
  s.offers.Pairwise (fun a b => a.requestId = b.requestId →
    a.status = OfferStatus.taken → b.status = OfferStatus.taken → False)

def Inv (s : DB) : Prop :=
  reqIdsOk s ∧ masterIdsOk s ∧ offersOk s ∧ refsOk s ∧ freeOk s ∧ statsOk s ∧ takenOk s

theorem statusOf_congr {s1 s2 : DB} (h : s1.requests = s2.requests) (rid : Nat) :
    statusOf s1 rid = statusOf s2 rid := by
  unfold statusOf findRequest
  rw [h]

theorem findRequest_updateRequest (s : DB) (rid0 : Nat) (f : Request → Request)
    (hf : ∀ r, (f r).id = r.id) (rid : Nat) :
    findRequest (updateRequest s rid0 f) rid
      = (findRequest s rid).map (fun r => if r.id == rid0 then f r else r) := by
  unfold findRequest updateRequest mapRequests
  exact find?_map_pred _ _ _
    (fun r => by by_cases h : (r.id == rid0) = true <;> simp [h, hf])

theorem findMaster_mapMasters (s : DB) (g : Master → Master)
    (hg : ∀ m, (g m).id = m.id) (mid : Nat) :
    findMaster (mapMasters s g) mid = (findMaster s mid).map g := by
  unfold findMaster mapMasters
  exact find?_map_pred _ _ _ (fun m => by simp [hg])

theorem mapMasters_ids (s : DB) (g : Master → Master) (hg : ∀ m, (g m).id = m.id) :
    (mapMasters s g).masters.map (fun m => m.id) = s.masters.map (fun m => m.id) := by
  unfold mapMasters
  dsimp only
  rw [List.map_map]
  exact List.map_congr_left (fun a _ => hg a)

theorem mapRequests_ids (s : DB) (f : Request → Request) (hf : ∀ r, (f r).id = r.id) :
    (mapRequests s f).requests.map (fun r => r.id) = s.requests.map (fun r => r.id) := by
  unfold mapRequests
  dsimp only
  rw [List.map_map]
  exact List.map_congr_left (fun a _ => hf a)

theorem masterRatings_congr {s1 s2 : DB} (h : s1.reviews = s2.reviews) (mid : Nat) :
    masterRatings s1 mid = masterRatings s2 mid := by
  unfold masterRatings
  rw [h]

theorem statusOf_updateRequest_ne (s : DB) (rid0 : Nat) (f : Request → Request)
    (hf : ∀ r, (f r).id = r.id) (rid : Nat) (hne : rid ≠ rid0) :
    statusOf (updateRequest s rid0 f) rid = statusOf s rid := by
  unfold statusOf
  rw [findRequest_updateRequest s rid0 f hf rid]
  cases hfind : findRequest s rid with
  | none => rfl
  | some r =>
    have hr : r.id = rid := by simpa using List.find?_some hfind
    have hr0 : ¬ (r.id = rid0) := by
      rw [hr]
      exact hne
    simp [hr0]

theorem statusOf_updateRequest_status (s : DB) (rid0 : Nat) (f : Request → Request)
    (hf : ∀ r, (f r).id = r.id) (hst : ∀ r, (f r).status = r.status) (rid : Nat) :
    statusOf (updateRequest s rid0 f) rid = statusOf s rid := by
  unfold statusOf
  rw [findRequest_updateRequest s rid0 f hf rid]
  cases hfind : findRequest s rid with
  | none => rfl
  | some r => by_cases h : r.id = rid0 <;> simp [h, hst]

/-- Inv preservation for a pure master-table map that keeps ids, keeps
the review aggregates, and does not push the free balance negative. -/
theorem Inv_mapMasters (s : DB) (g : Master → Master)
    (hid : ∀ m, (g m).id = m.id)
    (hfree : ∀ m ∈ s.masters, 0 ≤ m.freeOrdersLeft → 0 ≤ (g m).freeOrdersLeft)
    (havg : ∀ m, (g m).avgRatingTenths = m.avgRatingTenths)
    (hcnt : ∀ m, (g m).reviewsCount = m.reviewsCount)
    (h : Inv s) : Inv (mapMasters s g) := by
  obtain ⟨h1, h2, h3, h4, h5, h6, h7⟩ := h
  refine ⟨h1, ⟨?_, ?_⟩, h3, h4, ?_, ?_, h7⟩
  · rw [mapMasters_ids s g hid]
    exact h2.1
  · intro m hm
    rcases List.mem_map.mp hm with ⟨m0, hm0, rfl⟩
    rw [hid]
    exact h2.2 m0 hm0
  · intro m hm
    rcases List.mem_map.mp hm with ⟨m0, hm0, rfl⟩
    exact hfree m0 hm0 (h5 m0 hm0)
  · intro m hm
    rcases List.mem_map.mp hm with ⟨m0, hm0, rfl⟩
    rw [hid, havg, hcnt]
    exact h6 m0 hm0

theorem Inv_applyPayment (s : DB) (contact : String) (k : PayKind) (now : Int)
    (h : Inv s) : Inv (applyPayment s contact k now) := by
  unfold applyPayment
  refine Inv_mapMasters s _ ?_ ?_ ?_ ?_ h
  · intro m
    by_cases hc : (m.contact == contact) = true <;> cases k <;> simp [hc]
  · intro m _ h0
    by_cases hc : (m.contact == contact) = true <;> cases k <;> simp [hc, h0]
  · intro m
    by_cases hc : (m.contact == contact) = true <;> cases k <;> simp [hc]
  · intro m
    by_cases hc : (m.contact == contact) = true <;> cases k <;> simp [hc]

theorem Inv_registerMaster (s : DB) (contact cats : String) (h : Inv s) :
    Inv (registerMaster s contact cats) := by
  obtain ⟨h1, h2, h3, h4, h5, h6, h7⟩ := h
  unfold registerMaster
  dsimp only
  refine ⟨h1, ⟨?_, ?_⟩, h3, ⟨?_, ?_⟩, ?_, ?_, h7⟩
  · rw [List.map_append, List.nodup_append]
    refine ⟨h2.1, List.nodup_singleton _, ?_⟩
    intro a ha hmem
    rcases List.mem_map.mp ha with ⟨m0, hm0, rfl⟩
    have hmem' : m0.id = s.nextMasterId := by simpa using hmem
    have hlt := h2.2 m0 hm0
    omega
  · intro m hm
    rcases List.mem_append.mp hm with hm | hm
    · exact Nat.lt_succ_of_lt (h2.2 m hm)
    · rcases List.mem_singleton.mp hm with rfl
      exact Nat.lt_succ_self _
  · intro r hr mid hmid
    exact Nat.lt_succ_of_lt (h4.1 r hr mid hmid)
  · intro rv hrv
    exact Nat.lt_succ_of_lt (h4.2 rv hrv)
  · intro m hm
    rcases List.mem_append.mp hm with hm | hm
    · exact h5 m hm
    · rcases List.mem_singleton.mp hm with rfl
      show (0 : Int) ≤ 3
      decide
  · intro m hm
    rcases List.mem_append.mp hm with hm | hm
    · exact h6 m hm
    · rcases List.mem_singleton.mp hm with rfl
      intro hne
      exfalso
      apply hne
      have hnil : s.reviews.filter (fun rv => rv.masterId == s.nextMasterId) = [] := by
        rw [List.filter_eq_nil_iff]
        intro rv hrv
        have := h4.2 rv hrv
        simp only [beq_iff_eq]
        omega
      show (s.reviews.filter (fun rv => rv.masterId == s.nextMasterId)).map
        (fun rv => rv.rating) = []
      rw [hnil]
      rfl

/-- Inv preservation for a single-request UPDATE that keeps the id, does
not move a request back to `new`, and only writes bounded master ids. -/
theorem Inv_updateRequest (s : DB) (rid : Nat) (f : Request → Request)
    (hid : ∀ r, (f r).id = r.id)
    (hmid : ∀ r mid', (f r).masterId = some mid' →
      r.masterId = some mid' ∨ mid' < s.nextMasterId)
    (hstnew : ∀ r, (f r).status = ReqStatus.new → r.status = ReqStatus.new)
    (h : Inv s) : Inv (updateRequest s rid f) := by
  obtain ⟨h1, h2, h3, h4, h5, h6, h7⟩ := h
  have hgid : ∀ r : Request, ((if r.id == rid then f r else r)).id = r.id := by
    intro r
    by_cases hc : (r.id == rid) = true <;> simp [hc, hid]
  refine ⟨⟨?_, ?_⟩, h2, h3, ⟨?_, h4.2⟩, h5, h6, ⟨?_, h7.2⟩⟩
  · rw [show (updateRequest s rid f).requests = (mapRequests s _).requests from rfl,
      mapRequests_ids s _ hgid]
    exact h1.1
  · intro r hr
    rcases List.mem_map.mp hr with ⟨r0, hr0, rfl⟩
    rw [hgid]
    exact h1.2 r0 hr0
  · intro r hr mid' hm
    rcases List.mem_map.mp hr with ⟨r0, hr0, rfl⟩
    by_cases hc : (r0.id == rid) = true
    · rw [if_pos hc] at hm
      rcases hmid r0 mid' hm with hm' | hm'
      · exact h4.1 r0 hr0 mid' hm'
      · exact hm'
    · rw [if_neg hc] at hm
      exact h4.1 r0 hr0 mid' hm
  · intro o ho hst heq
    rw [show statusOf (updateRequest s rid f) o.requestId
        = ((findRequest s o.requestId).map
            (fun r => if r.id == rid then f r else r)).map (fun r => r.status) from by
      unfold statusOf
      rw [findRequest_updateRequest s rid f hid]] at heq
    cases hfind : findRequest s o.requestId with
    | none => rw [hfind] at heq; cases heq
    | some r =>
      rw [hfind] at heq
      simp only [Option.map_some'] at heq
      have hrst : r.status = ReqStatus.new := by
        by_cases hc : (r.id == rid) = true
        · rw [if_pos hc] at heq
          exact hstnew r (Option.some.inj heq)
        · rw [if_neg hc] at heq
          exact Option.some.inj heq
      apply h7.1 o ho hst
      unfold statusOf
      rw [hfind]
      simp only [Option.map_some']
      rw [hrst]

theorem Inv_request_review (s : DB) (rid : Nat) (h : Inv s) :
    Inv ((request_review s rid).1) := by
  unfold request_review
  dsimp only
  split_ifs with h1 h2
  · exact h
  · exact h
  · exact Inv_updateRequest s rid _ (fun r => rfl) (fun r mid' hm => Or.inl hm)
      (fun r hs => hs) h

theorem Inv_mark_request_completed (s : DB) (rid : Nat) (now : Int) (h : Inv s) :
    Inv ((mark_request_completed s rid now).1) := by
  unfold mark_request_completed
  cases hfind : findRequest s rid with
  | none => exact h
  | some req =>
    dsimp only
    have hs1 := Inv_updateRequest s rid
      (fun r => { r with status := ReqStatus.completed, completedAt := some now })
      (fun r => rfl) (fun r mid' hm => Or.inl hm) (fun r hs => nomatch hs) h
    have hs2 := Inv_request_review _ rid hs1
    cases hmid : req.masterId with
    | none => exact hs2
    | some mid =>
      dsimp only
      refine Inv_mapMasters _ _ ?_ ?_ ?_ ?_ hs2
      · intro m
        by_cases hc : (m.id == mid) = true <;> simp [hc]
      · intro m _ h0
        by_cases hc : (m.id == mid) = true <;> simp [hc, h0]
      · intro m
        by_cases hc : (m.id == mid) = true <;> simp [hc]
      · intro m
        by_cases hc : (m.id == mid) = true <;> simp [hc]

theorem Inv_complete_order (s : DB) (caller : String) (rid : Nat) (h : Inv s) :
    Inv ((complete_order s caller rid).1) := by
  unfold complete_order
  cases hcm : findMasterByContact s caller with
  | none =>
    cases hfind : findRequest s rid with
    | none => exact h
    | some req => exact h
  | some cm =>
    cases hfind : findRequest s rid with
    | none => exact h
    | some req =>
      dsimp only
      split_ifs with ho hc hp
      · exact h
      · exact h
      · exact Inv_updateRequest s rid _ (fun r => rfl) (fun r mid' hm => Or.inl hm)
          (fun r hs => nomatch hs) h
      · exact h

theorem Inv_client_confirmation (s : DB) (rid : Nat) (yes : Bool) (now : Int) (h : Inv s) :
    Inv ((client_confirmation s rid yes now).1) := by
  unfold client_confirmation
  cases hfind : findRequest s rid with
  | none => exact h
  | some req =>
    dsimp only
    split_ifs with hc hy hr2
    · exact h
    · exact Inv_mark_request_completed s rid now h
    · exact Inv_mark_request_completed s rid now h
    · exact Inv_updateRequest s rid _ (fun r => rfl) (fun r mid' hm => Or.inl hm)
        (fun r hs => nomatch hs) h

theorem Inv_foldl_mark (now : Int) (l : List Request) (s : DB) (h : Inv s) :
    Inv (l.foldl (fun acc r => (mark_request_completed acc r.id now).1) s) := by
  induction l generalizing s with
  | nil => exact h
  | cons r rest ih => exact ih _ (Inv_mark_request_completed s r.id now h)

theorem Inv_sweepAutoComplete (s : DB) (now : Int) (h : Inv s) :
    Inv (sweepAutoComplete s now) := by
  unfold sweepAutoComplete
  exact Inv_foldl_mark now _ s h

/-- Inv preservation for inserting a fresh request row. -/
theorem Inv_insertRequest (s : DB) (row : Request)
    (hid : row.id = s.nextRequestId)
    (hmid : row.masterId = none)
    (h : Inv s) :
    Inv { s with requests := s.requests ++ [row], nextRequestId := s.nextRequestId + 1 } := by
  obtain ⟨h1, h2, h3, h4, h5, h6, h7⟩ := h
  refine ⟨⟨?_, ?_⟩, h2, ⟨?_, h3.2⟩, ⟨?_, h4.2⟩, h5, h6, ⟨?_, h7.2⟩⟩
  · rw [List.map_append, List.nodup_append]
    refine ⟨h1.1, List.nodup_singleton _, ?_⟩
    intro a ha hmem
    rcases List.mem_map.mp ha with ⟨r0, hr0, rfl⟩
    have hmem' : r0.id = row.id := by simpa using hmem
    have hlt := h1.2 r0 hr0
    rw [hid] at hmem'
    omega
  · intro r hr
    rcases List.mem_append.mp hr with hr | hr
    · exact Nat.lt_succ_of_lt (h1.2 r hr)
    · rcases List.mem_singleton.mp hr with rfl
      rw [hid]
      exact Nat.lt_succ_self _
  · intro o ho
    exact Nat.lt_succ_of_lt (h3.1 o ho)
  · intro r hr mid' hm
    rcases List.mem_append.mp hr with hr | hr
    · exact h4.1 r hr mid' hm
    · rcases List.mem_singleton.mp hr with rfl
      rw [hmid] at hm
      cases hm
  · intro o ho hst heq
    have hbound := h3.1 o ho
    cases hf : findRequest s o.requestId with
    | some r =>
      have hf2 : s.requests.find? (fun r => r.id == o.requestId) = some r := hf
      have hf' : (s.requests ++ [row]).find? (fun r => r.id == o.requestId) = some r :=
        find?_append_some _ _ _ r hf2
      apply h7.1 o ho hst
      unfold statusOf findRequest at heq ⊢
      dsimp only at heq
      rw [hf'] at heq
      rw [hf2]
      exact heq
    | none =>
      have hf2 : s.requests.find? (fun r => r.id == o.requestId) = none := hf
      have hrow : ((row.id == o.requestId) : Bool) = false := by
        simp only [beq_eq_false_iff_ne]
        rw [hid]
        omega
      have hf' : (s.requests ++ [row]).find? (fun r => r.id == o.requestId) = none := by
        rw [find?_append_none _ _ _ hf2, List.find?_cons_of_neg _ (by simp [hrow]),
          List.find?_nil]
      unfold statusOf findRequest at heq
      dsimp only at heq
      rw [hf'] at heq
      cases heq

theorem Inv_broadcastLoop (rid : Nat) (blocked : List Nat) (l : List Master) :
    ∀ t : DB, Inv t →
    rid < t.nextRequestId →
    (l.map (fun m => m.id)).Nodup →
    (∀ o ∈ t.offers, o.requestId = rid → ∀ m ∈ l, o.masterId ≠ m.id) →
    Inv (broadcastLoop rid blocked t l) := by
  induction l with
  | nil =>
    intro t ht _ _ _
    exact ht
  | cons m rest ih =>
    intro t ht hlt hnodup hnooff
    rw [List.map_cons, List.nodup_cons] at hnodup
    unfold broadcastLoop
    dsimp only
    have ht1 : Inv { t with offers := t.offers ++ [⟨rid, m.id, OfferStatus.sent⟩] } := by
      obtain ⟨h1, h2, h3, h4, h5, h6, h7⟩ := ht
      refine ⟨h1, h2, ⟨?_, ?_⟩, h4, h5, h6, ⟨?_, ?_⟩⟩
      · intro o ho
        rcases List.mem_append.mp ho with ho | ho
        · exact h3.1 o ho
        · rcases List.mem_singleton.mp ho with rfl
          exact hlt
      · rw [List.pairwise_append]
        refine ⟨h3.2, by simp, ?_⟩
        intro a ha b hb
        rcases List.mem_singleton.mp hb with rfl
        intro habreq
        exact hnooff a ha habreq m (List.mem_cons_self m rest)
      · intro o ho hst
        rcases List.mem_append.mp ho with ho | ho
        · intro heq
          exact h7.1 o ho hst heq
        · rcases List.mem_singleton.mp ho with rfl
          nomatch hst
      · rw [List.pairwise_append]
        refine ⟨h7.2, by simp, ?_⟩
        intro a ha b hb
        rcases List.mem_singleton.mp hb with rfl
        intro _ _ htb
        nomatch htb
    refine ih _ ?_ ?_ hnodup.2 ?_
    · split_ifs with hb
      · refine Inv_mapMasters _ _ ?_ ?_ ?_ ?_ ht1
        · intro mm
          by_cases hc : (mm.id == m.id) = true <;> simp [hc]
        · intro mm _ h0
          by_cases hc : (mm.id == m.id) = true <;> simp [hc, h0]
        · intro mm
          by_cases hc : (mm.id == m.id) = true <;> simp [hc]
        · intro mm
          by_cases hc : (mm.id == m.id) = true <;> simp [hc]
      · exact ht1
    · split_ifs with hb
      · exact hlt
      · exact hlt
    · intro o ho hor m' hm'
      have ho' : o ∈ t.offers ++ [⟨rid, m.id, OfferStatus.sent⟩] := by
        split_ifs at ho
        · exact ho
        · exact ho
      rcases List.mem_append.mp ho' with ho2 | ho2
      · exact hnooff o ho2 hor m' (List.mem_cons_of_mem m hm')
      · rcases List.mem_singleton.mp ho2 with rfl
        show m.id ≠ m'.id
        intro heq
        exact hnodup.1 (heq ▸ List.mem_map_of_mem _ hm')

theorem Inv_submitRequest (s : DB) (category clientUserId : String) (blocked : List Nat)
    (now : Int) (h : Inv s) : Inv (submitRequest s category clientUserId blocked now) := by
  unfold submitRequest send_to_masters
  dsimp only
  have hs1 := Inv_insertRequest s
    { id := s.nextRequestId, category := category, clientUserId := clientUserId,
      status := ReqStatus.new, masterId := none, reviewRequested := false,
      createdAt := now, completedAt := none } rfl rfl h
  have hnodupsel : ∀ (t : DB) (cat : String) (n : Int),
      (t.masters.map (fun m => m.id)).Nodup →
      ((selectMasters t cat n).map (fun m => m.id)).Nodup := by
    intro t cat n hn
    have hsub1 : (eligibleMasters t cat).Sublist t.masters :=
      ((List.filter_sublist _).trans (List.filter_sublist _))
    have hnodup1 : ((eligibleMasters t cat).map (fun m => m.id)).Nodup :=
      hn.sublist (hsub1.map _)
    have hperm : ((sortDesc (sort_key n) (eligibleMasters t cat)).map
        (fun m => m.id)).Perm ((eligibleMasters t cat).map (fun m => m.id)) :=
      (sortDesc_perm _ _).map _
    have hnodup2 := hperm.nodup_iff.mpr hnodup1
    exact hnodup2.sublist ((List.take_sublist _ _).map _)
  refine Inv_broadcastLoop s.nextRequestId blocked _ _ hs1 (Nat.lt_succ_self _)
    (hnodupsel _ _ _ h.2.1.1) ?_
  intro o ho hor m' _
  have hbound := h.2.2.1.1 o ho
  exact absurd hor (by omega)

/-- Inv preservation for writing a recomputed (value, count) pair into
the master rows with the given id. -/
theorem Inv_setStats (s1 : DB) (mid : Nat) (V : Int) (L : Nat)
    (h1 : reqIdsOk s1) (h2 : masterIdsOk s1) (h3 : offersOk s1) (h4 : refsOk s1)
    (h5 : freeOk s1) (h7 : takenOk s1)
    (hgood : V = Int.ofNat (roundHalfEvenDiv (10 * (masterRatings s1 mid).sum)
        (masterRatings s1 mid).length) ∧ L = (masterRatings s1 mid).length)
    (h6' : ∀ m ∈ s1.masters, m.id ≠ mid → masterRatings s1 m.id ≠ [] →
      m.avgRatingTenths = Int.ofNat (roundHalfEvenDiv (10 * (masterRatings s1 m.id).sum)
          (masterRatings s1 m.id).length) ∧
        m.reviewsCount = (masterRatings s1 m.id).length) :
    Inv (updateMaster s1 mid
      (fun m => { m with avgRatingTenths := V, reviewsCount := L })) := by
  unfold updateMaster
  have hgid : ∀ m : Master,
      ((if m.id == mid then { m with avgRatingTenths := V, reviewsCount := L } else m)).id
        = m.id := by
    intro m
    by_cases hc : (m.id == mid) = true <;> simp [hc]
  refine ⟨h1, ⟨?_, ?_⟩, h3, h4, ?_, ?_, h7⟩
  · rw [mapMasters_ids s1 _ hgid]
    exact h2.1
  · intro m hm
    rcases List.mem_map.mp hm with ⟨m0, hm0, rfl⟩
    rw [hgid]
    exact h2.2 m0 hm0
  · intro m hm
    rcases List.mem_map.mp hm with ⟨m0, hm0, rfl⟩
    by_cases hc : (m0.id == mid) = true
    · rw [if_pos hc]
      exact h5 m0 hm0
    · rw [if_neg hc]
      exact h5 m0 hm0
  · intro m hm
    rcases List.mem_map.mp hm with ⟨m0, hm0, rfl⟩
    by_cases hc : (m0.id == mid) = true
    · rw [if_pos hc]
      have hc' : m0.id = mid := by simpa using hc
      intro _
      constructor
      · show V = Int.ofNat (roundHalfEvenDiv (10 * (masterRatings s1 m0.id).sum)
          (masterRatings s1 m0.id).length)
        rw [hc']
        exact hgood.1
      · show L = (masterRatings s1 m0.id).length
        rw [hc']
        exact hgood.2
    · rw [if_neg hc]
      have hc' : m0.id ≠ mid := by simpa using hc
      exact h6' m0 hm0 hc'

theorem Inv_update_master_stats (s1 : DB) (mid : Nat)
    (h1 : reqIdsOk s1) (h2 : masterIdsOk s1) (h3 : offersOk s1) (h4 : refsOk s1)
    (h5 : freeOk s1) (h7 : takenOk s1)
    (h6' : ∀ m ∈ s1.masters, m.id ≠ mid → masterRatings s1 m.id ≠ [] →
      m.avgRatingTenths = Int.ofNat (roundHalfEvenDiv (10 * (masterRatings s1 m.id).sum)
          (masterRatings s1 m.id).length) ∧
        m.reviewsCount = (masterRatings s1 m.id).length) :
    Inv (update_master_stats s1 mid) := by
  unfold update_master_stats
  dsimp only
  split_ifs with hlen
  · exact Inv_setStats s1 mid _ _ h1 h2 h3 h4 h5 h7 ⟨rfl, rfl⟩ h6'
  · refine ⟨h1, h2, h3, h4, h5, ?_, h7⟩
    intro m hm hne
    by_cases hc : m.id = mid
    · exfalso
      apply hne
      rw [hc]
      have hz : (masterRatings s1 mid).length = 0 := by omega
      exact List.length_eq_zero.mp hz
    · exact h6' m hm hc hne

theorem Inv_process_rating (s : DB) (clientId : String) (rid rating : Nat) (h : Inv s) :
    Inv ((process_rating s clientId rid rating).1) := by
  unfold process_rating
  cases hfind : findRequest s rid with
  | none => exact h
  | some req =>
    dsimp only
    cases hmid : req.masterId with
    | none => exact h
    | some mid =>
      dsimp only
      obtain ⟨h1, h2, h3, h4, h5, h6, h7⟩ := h
      have hreqmem : req ∈ s.requests := List.mem_of_find?_eq_some hfind
      have hmidlt : mid < s.nextMasterId := h4.1 req hreqmem mid hmid
      refine Inv_update_master_stats _ mid h1 h2 h3 ⟨h4.1, ?_⟩ h5 h7 ?_
      · intro rv hrv
        rcases List.mem_append.mp hrv with hrv | hrv
        · exact h4.2 rv hrv
        · rcases List.mem_singleton.mp hrv with rfl
          exact hmidlt
      · intro m hm hne hnonempty
        have hother : masterRatings
            { s with reviews := s.reviews ++ [⟨rid, mid, clientId, rating, none⟩] } m.id
            = masterRatings s m.id := by
          unfold masterRatings
          dsimp only
          rw [List.filter_append]
          have hcond : ¬ ((((⟨rid, mid, clientId, rating, none⟩ : Review)).masterId == m.id)
              = true) := by
            simp only [beq_iff_eq]
            exact fun hh => hne hh.symm
          rw [List.filter_cons, List.filter_nil, if_neg hcond, List.append_nil]
        rw [hother] at hnonempty
        rw [hother]
        exact h6 m hm hnonempty

theorem Inv_debit (s : DB) (masterId : Nat) (m : Master)
    (hm : findMaster s masterId = some m) (hfr : 0 < m.freeOrdersLeft)
    (h : Inv s) :
    Inv (updateMaster s masterId
      (fun mm => { mm with freeOrdersLeft := mm.freeOrdersLeft - 1 })) := by
  have hmem : m ∈ s.masters := List.mem_of_find?_eq_some hm
  have hmid : m.id = masterId := by simpa using List.find?_some hm
  refine Inv_mapMasters s _ ?_ ?_ ?_ ?_ h
  · intro mm
    by_cases hc : (mm.id == masterId) = true <;> simp [hc]
  · intro mm hmm h0
    by_cases hc : (mm.id == masterId) = true
    · have hc' : mm.id = masterId := by simpa using hc
      have heq : mm = m :=
        List.inj_on_of_nodup_map h.2.1.1 hmm hmem (by rw [hc', hmid])
      rw [if_pos hc]
      show 0 ≤ mm.freeOrdersLeft - 1
      rw [heq]
      omega
    · rw [if_neg hc]
      exact h0
  · intro mm
    by_cases hc : (mm.id == masterId) = true <;> simp [hc]
  · intro mm
    by_cases hc : (mm.id == masterId) = true <;> simp [hc]

/-- Inv preservation for a winning claim: the request (currently `new`)
is assigned and the pair's offers are marked `taken`. -/
theorem Inv_assign_mark (s : DB) (reqId masterId : Nat) (req : Request)
    (hfind : findRequest s reqId = some req)
    (hnew : req.status = ReqStatus.new)
    (hmidlt : masterId < s.nextMasterId)
    (h : Inv s) :
    Inv (updateOffers (updateRequest s reqId
      (fun r => { r with status := ReqStatus.assigned, masterId := some masterId }))
      reqId masterId OfferStatus.taken) := by
  have hs' : Inv (updateRequest s reqId
      (fun r => { r with status := ReqStatus.assigned, masterId := some masterId })) :=
    Inv_updateRequest s reqId _ (fun r => rfl)
      (fun r mid' hm => Or.inr (Option.some.inj hm ▸ hmidlt))
      (fun r hs => nomatch hs) h
  have hreqid : req.id = reqId := by simpa using List.find?_some hfind
  have hstat : statusOf (updateRequest s reqId
      (fun r => { r with status := ReqStatus.assigned, masterId := some masterId })) reqId
      = some ReqStatus.assigned := by
    unfold statusOf
    rw [findRequest_updateRequest s reqId
      (fun r => { r with status := ReqStatus.assigned, masterId := some masterId })
      (fun r => rfl) reqId, hfind]
    simp only [Option.map_some']
    rw [if_pos (by simpa using hreqid)]
  have hsnew : statusOf s reqId = some ReqStatus.new := by
    unfold statusOf
    rw [hfind]
    simp only [Option.map_some']
    rw [hnew]
  have hnotaken : ∀ o ∈ s.offers, o.requestId = reqId → o.status ≠ OfferStatus.taken := by
    intro o ho hrid hst
    apply h.2.2.2.2.2.2.1 o ho hst
    rw [hrid]
    exact hsnew
  obtain ⟨g1, g2, g3, g4, g5, g6, g7⟩ := hs'
  simp only [updateOffers]
  have hfields : ∀ o : Offer,
      ((if o.requestId == reqId && o.masterId == masterId
          then { o with status := OfferStatus.taken } else o).requestId = o.requestId) ∧
      ((if o.requestId == reqId && o.masterId == masterId
          then { o with status := OfferStatus.taken } else o).masterId = o.masterId) := by
    intro o
    by_cases hc : (o.requestId == reqId && o.masterId == masterId) = true <;> simp [hc]
  refine ⟨g1, g2, ⟨?_, ?_⟩, g4, g5, g6, ⟨?_, ?_⟩⟩
  · intro o ho
    rcases List.mem_map.mp ho with ⟨o0, ho0, rfl⟩
    rw [(hfields o0).1]
    exact g3.1 o0 ho0
  · rw [List.pairwise_map]
    refine g3.2.imp_of_mem ?_
    intro a b _ _ hab
    rw [(hfields a).1, (hfields a).2, (hfields b).1, (hfields b).2]
    exact hab
  · intro o ho hst
    rcases List.mem_map.mp ho with ⟨o0, ho0, rfl⟩
    by_cases hc : (o0.requestId == reqId && o0.masterId == masterId) = true
    · have hrid : o0.requestId = reqId := by
        have := hc
        simp only [Bool.and_eq_true, beq_iff_eq] at this
        exact this.1
      rw [(hfields o0).1, hrid]
      intro heq
      have heq' : statusOf (updateRequest s reqId
          (fun r => { r with status := ReqStatus.assigned, masterId := some masterId })) reqId
          = some ReqStatus.new := heq
      rw [hstat] at heq'
      cases heq'
    · rw [if_neg hc] at hst
      rw [(hfields o0).1]
      by_cases hq : o0.requestId = reqId
      · exact absurd hst (hnotaken o0 ho0 hq)
      · intro heq
        apply h.2.2.2.2.2.2.1 o0 ho0 hst
        have heq' : statusOf (updateRequest s reqId
            (fun r => { r with status := ReqStatus.assigned, masterId := some masterId })) o0.requestId
            = some ReqStatus.new := heq
        rw [statusOf_updateRequest_ne s reqId
          (fun r => { r with status := ReqStatus.assigned, masterId := some masterId })
          (fun r => rfl) o0.requestId hq] at heq'
        exact heq'
  · rw [List.pairwise_map]
    refine (h.2.2.1.2.and h.2.2.2.2.2.2.2).imp_of_mem ?_
    intro a b ha hb hab hrid hta htb
    rcases hab with ⟨haboff, habtk⟩
    rw [(hfields a).1, (hfields b).1] at hrid
    by_cases hca : (a.requestId == reqId && a.masterId == masterId) = true
    · have hca' : a.requestId = reqId ∧ a.masterId = masterId := by
        simpa [Bool.and_eq_true] using hca
      by_cases hcb : (b.requestId == reqId && b.masterId == masterId) = true
      · have hcb' : b.requestId = reqId ∧ b.masterId = masterId := by
          simpa [Bool.and_eq_true] using hcb
        exact haboff (hca'.1.trans hcb'.1.symm) (hca'.2.trans hcb'.2.symm)
      · rw [if_neg hcb] at htb
        exact hnotaken b hb (by rw [← hrid, hca'.1]) htb
    · rw [if_neg hca] at hta
      by_cases hcb : (b.requestId == reqId && b.masterId == masterId) = true
      · have hcb' : b.requestId = reqId ∧ b.masterId = masterId := by
          simpa [Bool.and_eq_true] using hcb
        exact hnotaken a ha (by rw [hrid, hcb'.1]) hta
      · rw [if_neg hcb] at htb
        exact habtk hrid hta htb

theorem Inv_offerTake (s : DB) (caller : String) (reqId masterId : Nat) (now : Int)
    (rateOk : Bool) (h : Inv s) :
    Inv ((offerTake s caller reqId masterId now rateOk).1) := by
  unfold offerTake offerTakeF
  by_cases hrte : (!rateOk) = true
  · rw [if_pos hrte]
    exact h
  · rw [if_neg hrte]
    cases hfind : findRequest s reqId with
    | none => exact h
    | some req =>
      dsimp only
      cases hcm : findMasterByContact s caller with
      | none => exact h
      | some cm =>
        dsimp only
        by_cases hidb : (cm.id != masterId) = true
        · rw [if_pos hidb]
          exact h
        · rw [if_neg hidb]
          by_cases hstb : (req.status != ReqStatus.new) = true
          · rw [if_pos hstb]
            exact h
          · rw [if_neg hstb]
            cases hm : findMaster s masterId with
            | none => exact h
            | some m =>
              dsimp only
              have hnew : req.status = ReqStatus.new := by simpa using hstb
              have hmidlt : masterId < s.nextMasterId := by
                have hcmid : cm.id = masterId := by simpa using hidb
                have hcmmem : cm ∈ s.masters := List.mem_of_find?_eq_some hcm
                rw [← hcmid]
                exact h.2.1.2 cm hcmmem
              by_cases hsub : isActiveAt m.subUntil now = true
              · rw [if_pos hsub]
                exact Inv_assign_mark s reqId masterId req hfind hnew hmidlt h
              · rw [if_neg hsub]
                by_cases hfr : 0 < m.freeOrdersLeft
                · rw [if_pos hfr]
                  exact Inv_assign_mark _ reqId masterId req hfind hnew hmidlt
                    (Inv_debit s masterId m hm hfr h)
                · rw [if_neg hfr]
                  exact h

theorem Inv_offerSkip (s : DB) (reqId masterId : Nat) (rateOk : Bool) (h : Inv s) :
    Inv ((offerSkip s reqId masterId rateOk).1) := by
  unfold offerSkip
  split_ifs with hr
  · exact h
  · cases hfind : findRequest s reqId with
    | none => exact h
    | some req =>
      unfold updateOffers
      dsimp only
      obtain ⟨h1, h2, h3, h4, h5, h6, h7⟩ := h
      have hfields : ∀ o : Offer,
          ((if o.requestId == reqId && o.masterId == masterId
              then { o with status := OfferStatus.skipped } else o).requestId = o.requestId) ∧
          ((if o.requestId == reqId && o.masterId == masterId
              then { o with status := OfferStatus.skipped } else o).masterId = o.masterId) := by
        intro o
        by_cases hc : (o.requestId == reqId && o.masterId == masterId) = true <;> simp [hc]
      refine ⟨h1, h2, ⟨?_, ?_⟩, h4, h5, h6, ⟨?_, ?_⟩⟩
      · intro o ho
        rcases List.mem_map.mp ho with ⟨o0, ho0, rfl⟩
        rw [(hfields o0).1]
        exact h3.1 o0 ho0
      · rw [List.pairwise_map]
        refine h3.2.imp_of_mem ?_
        intro a b _ _ hab
        rw [(hfields a).1, (hfields a).2, (hfields b).1, (hfields b).2]
        exact hab
      · intro o ho hst
        rcases List.mem_map.mp ho with ⟨o0, ho0, rfl⟩
        have ho0st : o0.status = OfferStatus.taken := by
          by_cases hc : (o0.requestId == reqId && o0.masterId == masterId) = true
          · rw [if_pos hc] at hst
            cases hst
          · rw [if_neg hc] at hst
            exact hst
        rw [(hfields o0).1]
        exact h7.1 o0 ho0 ho0st
      · rw [List.pairwise_map]
        refine h7.2.imp_of_mem ?_
        intro a b _ _ hab
        rw [(hfields a).1, (hfields b).1]
        intro hrid hta htb
        have hta' : a.status = OfferStatus.taken := by
          by_cases hc : (a.requestId == reqId && a.masterId == masterId) = true
          · rw [if_pos hc] at hta
            cases hta
          · rw [if_neg hc] at hta
            exact hta
        have htb' : b.status = OfferStatus.taken := by
          by_cases hc : (b.requestId == reqId && b.masterId == masterId) = true
          · rw [if_pos hc] at htb
            cases htb
          · rw [if_neg hc] at htb
            exact htb
        exact hab hrid hta' htb'

theorem Inv_initDB : Inv initDB := by
  refine ⟨⟨?_, ?_⟩, ⟨?_, ?_⟩, ⟨?_, ?_⟩, ⟨?_, ?_⟩, ?_, ?_, ⟨?_, ?_⟩⟩ <;>
    simp [initDB, freeOk, statsOk]

theorem Inv_step (s : DB) (e : Event) (h : Inv s) : Inv (step s e) := by
  cases e with
  | submitReq category clientUserId blocked now =>
    exact Inv_submitRequest s category clientUserId blocked now h
  | register contact cats_auto => exact Inv_registerMaster s contact cats_auto h
  | take caller reqId masterId now rateOk =>
    exact Inv_offerTake s caller reqId masterId now rateOk h
  | skipOffer reqId masterId rateOk => exact Inv_offerSkip s reqId masterId rateOk h
  | markDone caller reqId => exact Inv_complete_order s caller reqId h
  | confirm reqId yes now => exact Inv_client_confirmation s reqId yes now h
  | rate clientId reqId rating => exact Inv_process_rating s clientId reqId rating h
  | pay contact k now => exact Inv_applyPayment s contact k now h
  | sweep now => exact Inv_sweepAutoComplete s now h

theorem Inv_run_from (tr : List Event) : ∀ s : DB, Inv s → Inv (run s tr) := by
  induction tr with
  | nil =>
    intro s hs
    exact hs
  | cons e rest ih =>
    intro s hs
    exact ih (step s e) (Inv_step s e hs)

theorem Inv_run (tr : List Event) : Inv (run initDB tr) :=
  Inv_run_from tr initDB Inv_initDB

theorem run_append (s : DB) (t1 t2 : List Event) :
    run s (t1 ++ t2) = run (run s t1) t2 := by
  induction t1 generalizing s with
  | nil => rfl
  | cons e rest ih => exact ih (step s e)

theorem broadcaster_contract_witness :
    demoMaster ∈ selectMasters c6db "Ремонт" 0 ∧
    (demoMaster.isActive = true ∧ cat_match demoMaster.categoriesAuto "Ремонт" = true ∧
      demoMaster ∈ c6db.masters) ∧
    cat_match "" "Ремонт" = false ∧
    ((send_to_masters c6db 1 "Ремонт" [] 0).offers
      = c6db.offers ++ (selectMasters c6db "Ремонт" 0).map
          (fun m => ⟨1, m.id, OfferStatus.sent⟩)) := by
  have h := broadcaster_contract c6db "Ремонт" 0 [] 1
  exact ⟨by decide, h.1 demoMaster (by decide), h.2.1 "Ремонт", h.2.2.2.2.2.2.2⟩

/-- C2: free_orders_left is never negative in any reachable state; a
successful claim by a master with no active subscription decrements that
master's free_orders_left by exactly 1 (all other master rows are
untouched); and a claim by such a master with no free orders left is
rejected with the upsell prompt and changes no state. -/
theorem free_orders_entitlement (s : DB) (caller : String) (reqId masterId : Nat)
    (now : Int) (req : Request) (cm : Master) (m : Master)
    (hreq : findRequest s reqId = some req)
    (hcm : findMasterByContact s caller = some cm)
    (hown : cm.id = masterId)
    (hst : req.status = ReqStatus.new)
    (hm : findMaster s masterId = some m)
    (hsub : isActiveAt m.subUntil now = false) :
    (∀ tr : List Event, ∀ mm ∈ (run initDB tr).masters, 0 ≤ mm.freeOrdersLeft) ∧
    (0 < m.freeOrdersLeft →
      (offerTake s caller reqId masterId now true).2 = TakeOutcome.accepted ∧
      (offerTake s caller reqId masterId now true).1.masters =
        s.masters.map (fun mm => if mm.id == masterId then
          { mm with freeOrdersLeft := mm.freeOrdersLeft - 1 } else mm)) ∧
    (m.freeOrdersLeft ≤ 0 →
      offerTake s caller reqId masterId now true = (s, TakeOutcome.quotaExhausted)) := by
  refine ⟨?_, ?_, ?_⟩
  · intro tr mm hmm
    exact (Inv_run tr).2.2.2.2.1 mm hmm
  · intro hfr
    constructor
    · unfold offerTake offerTakeF
      simp [hreq, hcm, hown, hst, hm, hsub, hfr, noFail]
    · unfold offerTake offerTakeF tryExec
      simp [hreq, hcm, hown, hst, hm, hsub, hfr, noFail, updateRequest, updateMaster,
        updateOffers, mapRequests, mapMasters]
  · intro hle
    have hnfr : ¬ (0 < m.freeOrdersLeft) := by omega
    unfold offerTake offerTakeF
    simp [hreq, hcm, hown, hst, hm, hsub, hnfr, noFail]

def c2qdb : DB :=
  { requests := [demoRequest], masters := [{ demoMaster with freeOrdersLeft := 0 }],
    offers := [⟨1, 1, OfferStatus.sent⟩], reviews := [],
    nextRequestId := 2, nextMasterId := 2 }

theorem free_orders_entitlement_witness :
    (∀ mm ∈ (run initDB demoTrace3).masters, 0 ≤ mm.freeOrdersLeft) ∧
    (offerTake c3db "m1" 1 1 0 true).2 = TakeOutcome.accepted ∧
    (offerTake c3db "m1" 1 1 0 true).1.masters =
      c3db.masters.map (fun mm => if mm.id == 1 then
        { mm with freeOrdersLeft := mm.freeOrdersLeft - 1 } else mm) ∧
    offerTake c2qdb "m1" 1 1 0 true = (c2qdb, TakeOutcome.quotaExhausted) := by
  have h1 := free_orders_entitlement c3db "m1" 1 1 0 demoRequest demoMaster demoMaster
    (by decide) (by decide) (by decide) (by decide) (by decide) (by decide)
  have h2 := free_orders_entitlement c2qdb "m1" 1 1 0 demoRequest
    { demoMaster with freeOrdersLeft := 0 } { demoMaster with freeOrdersLeft := 0 }
    (by decide) (by decide) (by decide) (by decide) (by decide) (by decide)
  exact ⟨h1.1 demoTrace3, (h1.2.1 (by decide)).1, (h1.2.1 (by decide)).2,
    h2.2.2 (by decide)⟩

/-- C5 amended: in every reachable state at most one of a request's
offers holds status `taken` — concurrent claims are serialized, the
first successful take moves the request away from `new`, and later takes
are rejected — although resolved offers can still be overwritten by a
later skip. -/
theorem at_most_one_taken_offer (tr : List Event) (rid : Nat) :
    ((run initDB tr).offers.filter
        (fun o => o.requestId == rid && o.status == OfferStatus.taken)).length ≤ 1 := by
  have hp := (Inv_run tr).2.2.2.2.2.2.2
  have hp2 := hp.filter (fun o => o.requestId == rid && o.status == OfferStatus.taken)
  cases hl : (run initDB tr).offers.filter
      (fun o => o.requestId == rid && o.status == OfferStatus.taken) with
  | nil => simp
  | cons a rest =>
    cases rest with
    | nil => simp
    | cons b rest2 =>
      exfalso
      rw [hl] at hp2
      rcases List.pairwise_cons.mp hp2 with ⟨hab, _⟩
      have ha' : a ∈ (run initDB tr).offers.filter
          (fun o => o.requestId == rid && o.status == OfferStatus.taken) := by
        rw [hl]
        exact List.mem_cons_self a (b :: rest2)
      have hb' : b ∈ (run initDB tr).offers.filter
          (fun o => o.requestId == rid && o.status == OfferStatus.taken) := by
        rw [hl]
        exact List.mem_cons_of_mem a (List.mem_cons_self b rest2)
      have hpa := (List.mem_filter.mp ha').2
      have hpb := (List.mem_filter.mp hb').2
      simp only [Bool.and_eq_true, beq_iff_eq] at hpa hpb
      exact hab b (List.mem_cons_self b rest2) (hpa.1.trans hpb.1.symm) hpa.2 hpb.2

/-- C8: after a rating insertion for a request with an assigned master —
starting from any reachable state, i.e. after any prior sequence of
insertions — the master's stored avg_rating (tenths) equals the mean of
all that master's Review ratings rounded to one decimal, and the stored
reviews_count equals the number of those rows. -/
theorem avg_rating_is_rounded_mean (tr : List Event) (clientId : String)
    (rid rating : Nat) (req : Request) (mid : Nat)
    (hreq : findRequest (run initDB tr) rid = some req)
    (hmid : req.masterId = some mid) :
    ∀ mm ∈ (run initDB (tr ++ [Event.rate clientId rid rating])).masters,
      mm.id = mid →
      mm.avgRatingTenths = Int.ofNat (roundHalfEvenDiv
          (10 * (masterRatings (run initDB (tr ++ [Event.rate clientId rid rating])) mid).sum)
          (masterRatings (run initDB (tr ++ [Event.rate clientId rid rating])) mid).length) ∧
      mm.reviewsCount
        = (masterRatings (run initDB (tr ++ [Event.rate clientId rid rating])) mid).length := by
  intro mm hmm hid
  have hrun : run initDB (tr ++ [Event.rate clientId rid rating])
      = (process_rating (run initDB tr) clientId rid rating).1 := by
    rw [run_append]
    rfl
  have hne : masterRatings (run initDB (tr ++ [Event.rate clientId rid rating])) mid ≠ [] := by
    rw [hrun]
    unfold process_rating
    rw [hreq]
    dsimp only
    rw [hmid]
    dsimp only
    rw [masterRatings_congr (update_master_stats_reviews _ _) mid]
    unfold masterRatings
    dsimp only
    rw [List.filter_append, List.map_append]
    rw [List.filter_cons, List.filter_nil, if_pos (by simp)]
    simp
  have hstats := (Inv_run (tr ++ [Event.rate clientId rid rating])).2.2.2.2.2.1
  have hres := hstats mm hmm (by rw [hid]; exact hne)
  rw [hid] at hres
  exact hres

def c8tr : List Event := demoTrace3 ++ [Event.markDone "m1" 1, Event.confirm 1 true 0]

def c8req : Request :=
  { id := 1, category := "Ремонт", clientUserId := "c1", status := ReqStatus.completed,
    masterId := some 1, reviewRequested := true, createdAt := 0, completedAt := some 0 }

def c8master : Master :=
  { demoMaster with
    freeOrdersLeft := 2,
    ordersCompleted := 1,
    avgRatingTenths := 50,
    reviewsCount := 1 }

theorem avg_rating_is_rounded_mean_witness :
    c8master.avgRatingTenths = Int.ofNat (roundHalfEvenDiv
        (10 * (masterRatings (run initDB (c8tr ++ [Event.rate "c1" 1 5])) 1).sum)
        (masterRatings (run initDB (c8tr ++ [Event.rate "c1" 1 5])) 1).length) ∧
    c8master.reviewsCount
      = (masterRatings (run initDB (c8tr ++ [Event.rate "c1" 1 5])) 1).length :=
  avg_rating_is_rounded_mean c8tr "c1" 1 5 c8req 1 (by decide) (by decide)
    c8master (by decide) (by decide)


/-! ## Status-transition analysis for the lifecycle claim -/

theorem broadcastLoop_requests (rid : Nat) (blocked : List Nat) (s : DB) (l : List Master) :
    (broadcastLoop rid blocked s l).requests = s.requests := by
  induction l generalizing s with
  | nil => rfl
  | cons m rest ih =>
    unfold broadcastLoop
    dsimp only
    split_ifs with hb
    · rw [ih]
      rfl
    · rw [ih]

theorem statusOf_append_row (s : DB) (row : Request) (next2 : Nat) (rid : Nat) :
    statusOf { s with requests := s.requests ++ [row], nextRequestId := next2 } rid
      = statusOf s rid ∨
    statusOf { s with requests := s.requests ++ [row], nextRequestId := next2 } rid
      = some row.status := by
  unfold statusOf findRequest
  dsimp only
  cases hf : s.requests.find? (fun r => r.id == rid) with
  | some r =>
    left
    rw [find?_append_some _ _ _ r hf]
  | none =>
    rw [find?_append_none _ _ _ hf]
    by_cases hc : (row.id == rid) = true
    · right
      have hsing : List.find? (fun r => r.id == rid) ([row] : List Request) = some row :=
        List.find?_cons_of_pos _ hc
      rw [hsing]
      rfl
    · left
      have hstep : List.find? (fun r => r.id == rid) ([row] : List Request)
          = List.find? (fun r => r.id == rid) ([] : List Request) :=
        List.find?_cons_of_neg _ hc
      rw [hstep]
      rfl

theorem statusOf_submitRequest (s : DB) (category clientUserId : String)
    (blocked : List Nat) (now : Int) (rid : Nat) :
    statusOf (submitRequest s category clientUserId blocked now) rid = statusOf s rid ∨
    statusOf (submitRequest s category clientUserId blocked now) rid
      = some ReqStatus.new := by
  unfold submitRequest send_to_masters
  dsimp only
  rw [statusOf_congr (broadcastLoop_requests _ _ _ _) rid]
  exact statusOf_append_row s _ _ rid

theorem statusOf_updateRequest_self (s : DB) (rid : Nat) (f : Request → Request)
    (hf : ∀ r, (f r).id = r.id) (req : Request) (hfind : findRequest s rid = some req) :
    statusOf (updateRequest s rid f) rid = some (f req).status := by
  unfold statusOf
  rw [findRequest_updateRequest s rid f hf rid, hfind]
  simp only [Option.map_some']
  rw [if_pos (by simpa using List.find?_some hfind)]

theorem statusOf_assign (s : DB) (reqId masterId : Nat) (rid : Nat) :
    statusOf (updateOffers (updateRequest s reqId
      (fun r => { r with status := ReqStatus.assigned, masterId := some masterId }))
      reqId masterId OfferStatus.taken) rid = statusOf s rid ∨
    statusOf (updateOffers (updateRequest s reqId
      (fun r => { r with status := ReqStatus.assigned, masterId := some masterId }))
      reqId masterId OfferStatus.taken) rid = some ReqStatus.assigned := by
  have hco : statusOf (updateOffers (updateRequest s reqId
      (fun r => { r with status := ReqStatus.assigned, masterId := some masterId }))
      reqId masterId OfferStatus.taken) rid
      = statusOf (updateRequest s reqId
        (fun r => { r with status := ReqStatus.assigned, masterId := some masterId })) rid :=
    statusOf_congr rfl rid
  rw [hco]
  by_cases hq : rid = reqId
  · subst hq
    cases hfind : findRequest s rid with
    | none =>
      left
      unfold statusOf
      rw [findRequest_updateRequest s rid
        (fun r => { r with status := ReqStatus.assigned, masterId := some masterId })
        (fun r => rfl) rid, hfind]
      rfl
    | some req =>
      right
      exact statusOf_updateRequest_self s rid
        (fun r => { r with status := ReqStatus.assigned, masterId := some masterId })
        (fun r => rfl) req hfind
  · left
    exact statusOf_updateRequest_ne s reqId
      (fun r => { r with status := ReqStatus.assigned, masterId := some masterId })
      (fun r => rfl) rid hq

theorem statusOf_offerTake (s : DB) (caller : String) (reqId masterId : Nat) (now : Int)
    (rateOk : Bool) (rid : Nat) :
    statusOf ((offerTake s caller reqId masterId now rateOk).1) rid = statusOf s rid ∨
    statusOf ((offerTake s caller reqId masterId now rateOk).1) rid
      = some ReqStatus.assigned := by
  unfold offerTake offerTakeF
  by_cases hrte : (!rateOk) = true
  · rw [if_pos hrte]
    exact Or.inl rfl
  · rw [if_neg hrte]
    cases hfind : findRequest s reqId with
    | none => exact Or.inl rfl
    | some req =>
      dsimp only
      cases hcm : findMasterByContact s caller with
      | none => exact Or.inl rfl
      | some cm =>
        dsimp only
        by_cases hidb : (cm.id != masterId) = true
        · rw [if_pos hidb]
          exact Or.inl rfl
        · rw [if_neg hidb]
          by_cases hstb : (req.status != ReqStatus.new) = true
          · rw [if_pos hstb]
            exact Or.inl rfl
          · rw [if_neg hstb]
            cases hm : findMaster s masterId with
            | none => exact Or.inl rfl
            | some m =>
              dsimp only
              by_cases hsub : isActiveAt m.subUntil now = true
              · rw [if_pos hsub]
                exact statusOf_assign s reqId masterId rid
              · rw [if_neg hsub]
                by_cases hfr : 0 < m.freeOrdersLeft
                · rw [if_pos hfr]
                  exact statusOf_assign _ reqId masterId rid
                · rw [if_neg hfr]
                  exact Or.inl rfl

theorem statusOf_offerSkip (s : DB) (reqId masterId : Nat) (rateOk : Bool) (rid : Nat) :
    statusOf ((offerSkip s reqId masterId rateOk).1) rid = statusOf s rid := by
  unfold offerSkip
  split_ifs with hr
  · rfl
  · cases hfind : findRequest s reqId with
    | none => rfl
    | some req => rfl

theorem statusOf_complete_order (s : DB) (caller : String) (reqId rid : Nat) :
    statusOf ((complete_order s caller reqId).1) rid = statusOf s rid ∨
    statusOf ((complete_order s caller reqId).1) rid
      = some ReqStatus.pendingConfirmation := by
  unfold complete_order
  cases hcm : findMasterByContact s caller with
  | none =>
    cases hfind : findRequest s reqId with
    | none => exact Or.inl rfl
    | some req => exact Or.inl rfl
  | some cm =>
    cases hfind : findRequest s reqId with
    | none => exact Or.inl rfl
    | some req =>
      dsimp only
      split_ifs with ho hc hp
      · exact Or.inl rfl
      · exact Or.inl rfl
      · by_cases hq : rid = reqId
        · subst hq
          right
          exact statusOf_updateRequest_self s rid
            (fun r => { r with status := ReqStatus.pendingConfirmation })
            (fun r => rfl) req hfind
        · left
          exact statusOf_updateRequest_ne s reqId
            (fun r => { r with status := ReqStatus.pendingConfirmation })
            (fun r => rfl) rid hq
      · exact Or.inl rfl

theorem statusOf_request_review (s : DB) (x rid : Nat) :
    statusOf ((request_review s x).1) rid = statusOf s rid := by
  unfold request_review
  dsimp only
  split_ifs with h1 h2
  · rfl
  · rfl
  · exact statusOf_updateRequest_status s x
      (fun r => { r with reviewRequested := true })
      (fun r => rfl) (fun r => rfl) rid

theorem statusOf_mark_ne (s : DB) (x : Nat) (now : Int) (rid : Nat) (hq : rid ≠ x) :
    statusOf ((mark_request_completed s x now).1) rid = statusOf s rid := by
  unfold mark_request_completed
  cases hfind : findRequest s x with
  | none => rfl
  | some req =>
    dsimp only
    have e1 : statusOf (updateRequest s x
        (fun r => { r with status := ReqStatus.completed, completedAt := some now })) rid
        = statusOf s rid :=
      statusOf_updateRequest_ne s x
        (fun r => { r with status := ReqStatus.completed, completedAt := some now })
        (fun r => rfl) rid hq
    have e2 : statusOf ((request_review (updateRequest s x
        (fun r => { r with status := ReqStatus.completed, completedAt := some now })) x).1) rid
        = statusOf (updateRequest s x
          (fun r => { r with status := ReqStatus.completed, completedAt := some now })) rid :=
      statusOf_request_review _ x rid
    cases hmid : req.masterId with
    | none => exact e2.trans e1
    | some mid => exact e2.trans e1

theorem statusOf_client_confirmation_ne (s : DB) (reqId : Nat) (yes : Bool) (now : Int)
    (rid : Nat) (hq : rid ≠ reqId) :
    statusOf ((client_confirmation s reqId yes now).1) rid = statusOf s rid := by
  unfold client_confirmation
  cases hfind : findRequest s reqId with
  | none => rfl
  | some req =>
    dsimp only
    split_ifs with hc hy hr2
    · rfl
    · exact statusOf_mark_ne s reqId now rid hq
    · exact statusOf_mark_ne s reqId now rid hq
    · exact statusOf_updateRequest_ne s reqId
        (fun r => { r with status := ReqStatus.assigned })
        (fun r => rfl) rid hq

theorem statusOf_confirm_no (s : DB) (reqId : Nat) (now : Int) (rid : Nat) :
    statusOf ((client_confirmation s reqId false now).1) rid = statusOf s rid ∨
    statusOf ((client_confirmation s reqId false now).1) rid = some ReqStatus.assigned := by
  unfold client_confirmation
  cases hfind : findRequest s reqId with
  | none => exact Or.inl rfl
  | some req =>
    dsimp only
    split_ifs with hc hy hr2
    · exact Or.inl rfl
    · cases hy
    · cases hy
    · by_cases hq : rid = reqId
      · subst hq
        right
        exact statusOf_updateRequest_self s rid
          (fun r => { r with status := ReqStatus.assigned })
          (fun r => rfl) req hfind
      · left
        exact statusOf_updateRequest_ne s reqId
          (fun r => { r with status := ReqStatus.assigned })
          (fun r => rfl) rid hq

theorem process_rating_requests (s : DB) (clientId : String) (rid0 rating : Nat) :
    ((process_rating s clientId rid0 rating).1).requests = s.requests := by
  unfold process_rating
  cases hfind : findRequest s rid0 with
  | none => rfl
  | some req =>
    dsimp only
    cases hmid : req.masterId with
    | none => rfl
    | some mid =>
      dsimp only
      rw [update_master_stats_requests]

theorem statusOf_foldl_mark (now : Int) (l : List Request) (s : DB) (rid : Nat) :
    statusOf (l.foldl (fun acc r => (mark_request_completed acc r.id now).1) s) rid
      = statusOf s rid ∨ ∃ r ∈ l, r.id = rid := by
  induction l generalizing s with
  | nil => exact Or.inl rfl
  | cons r rest ih =>
    rw [List.foldl_cons]
    by_cases hq : r.id = rid
    · exact Or.inr ⟨r, List.mem_cons_self r rest, hq⟩
    · rcases ih ((mark_request_completed s r.id now).1) with h | h
      · left
        rw [h]
        exact statusOf_mark_ne s r.id now rid (fun he => hq he.symm)
      · right
        rcases h with ⟨r2, hr2, hid2⟩
        exact ⟨r2, List.mem_cons_of_mem r hr2, hid2⟩

theorem findRequest_eq_of_nodup (s : DB) (hn : (s.requests.map (fun r => r.id)).Nodup)
    (r : Request) (hr : r ∈ s.requests) (rid : Nat) (hid : r.id = rid) :
    findRequest s rid = some r := by
  cases hf : findRequest s rid with
  | none =>
    exfalso
    exact (List.find?_eq_none.mp hf r hr) (by simp [hid])
  | some r2 =>
    have hr2mem : r2 ∈ s.requests := List.mem_of_find?_eq_some hf
    have hr2id : r2.id = rid := by simpa using List.find?_some hf
    have heq : r2 = r := List.inj_on_of_nodup_map hn hr2mem hr (by rw [hr2id, hid])
    rw [heq]

/-- C4 amended: in every reachable execution, a request's status becomes
`completed` only through `mark_request_completed`, reached either by a
confirm-yes event for that request — which `client_confirmation` permits
from ANY non-completed status, `new` and `assigned` included — or by a
sweep event, which completes only requests in `pending_confirmation`. -/
theorem completed_only_via_confirm_or_sweep (tr : List Event) (e : Event) (rid : Nat)
    (hpre : statusOf (run initDB tr) rid ≠ some ReqStatus.completed)
    (hpost : statusOf (step (run initDB tr) e) rid = some ReqStatus.completed) :
    (∃ now : Int, e = Event.confirm rid true now) ∨
    ((∃ now : Int, e = Event.sweep now) ∧
      statusOf (run initDB tr) rid = some ReqStatus.pendingConfirmation) := by
  cases e with
  | submitReq category clientUserId blocked now =>
    exfalso
    have hpost' : statusOf (submitRequest (run initDB tr) category clientUserId blocked now)
        rid = some ReqStatus.completed := hpost
    rcases statusOf_submitRequest (run initDB tr) category clientUserId blocked now rid
      with h | h
    · rw [h] at hpost'
      exact hpre hpost'
    · rw [h] at hpost'
      cases hpost'
  | register contact cats_auto => exact absurd hpost hpre
  | take caller reqId masterId now rateOk =>
    exfalso
    have hpost' : statusOf ((offerTake (run initDB tr) caller reqId masterId now rateOk).1)
        rid = some ReqStatus.completed := hpost
    rcases statusOf_offerTake (run initDB tr) caller reqId masterId now rateOk rid with h | h
    · rw [h] at hpost'
      exact hpre hpost'
    · rw [h] at hpost'
      cases hpost'
  | skipOffer reqId masterId rateOk =>
    exfalso
    have hpost' : statusOf ((offerSkip (run initDB tr) reqId masterId rateOk).1) rid
        = some ReqStatus.completed := hpost
    rw [statusOf_offerSkip (run initDB tr) reqId masterId rateOk rid] at hpost'
    exact hpre hpost'
  | markDone caller reqId =>
    exfalso
    have hpost' : statusOf ((complete_order (run initDB tr) caller reqId).1) rid
        = some ReqStatus.completed := hpost
    rcases statusOf_complete_order (run initDB tr) caller reqId rid with h | h
    · rw [h] at hpost'
      exact hpre hpost'
    · rw [h] at hpost'
      cases hpost'
  | confirm reqId yes now =>
    by_cases hq : rid = reqId
    · subst hq
      cases yes with
      | true => exact Or.inl ⟨now, rfl⟩
      | false =>
        exfalso
        have hpost' : statusOf ((client_confirmation (run initDB tr) rid false now).1) rid
            = some ReqStatus.completed := hpost
        rcases statusOf_confirm_no (run initDB tr) rid now rid with h | h
        · rw [h] at hpost'
          exact hpre hpost'
        · rw [h] at hpost'
          cases hpost'
    · exfalso
      have hpost' : statusOf ((client_confirmation (run initDB tr) reqId yes now).1) rid
          = some ReqStatus.completed := hpost
      rw [statusOf_client_confirmation_ne (run initDB tr) reqId yes now rid hq] at hpost'
      exact hpre hpost'
  | rate clientId reqId rating =>
    exfalso
    have hpost' : statusOf ((process_rating (run initDB tr) clientId reqId rating).1) rid
        = some ReqStatus.completed := hpost
    rw [statusOf_congr (process_rating_requests (run initDB tr) clientId reqId rating) rid]
      at hpost'
    exact hpre hpost'
  | pay contact k now => exact absurd hpost hpre
  | sweep now =>
    have hpost' : statusOf (sweepAutoComplete (run initDB tr) now) rid
        = some ReqStatus.completed := hpost
    unfold sweepAutoComplete at hpost'
    dsimp only at hpost'
    rcases statusOf_foldl_mark now ((run initDB tr).requests.filter
        (fun r => r.status == ReqStatus.pendingConfirmation && r.createdAt + 86400 < now))
        (run initDB tr) rid with h | h
    · exfalso
      rw [h] at hpost'
      exact hpre hpost'
    · rcases h with ⟨r, hrmem, hid⟩
      rcases List.mem_filter.mp hrmem with ⟨hrreq, hrcond⟩
      have hrp : r.status = ReqStatus.pendingConfirmation := by
        simp only [Bool.and_eq_true, beq_iff_eq, decide_eq_true_eq] at hrcond
        exact hrcond.1
      refine Or.inr ⟨⟨now, rfl⟩, ?_⟩
      have hfr : findRequest (run initDB tr) rid = some r :=
        findRequest_eq_of_nodup _ (Inv_run tr).1.1 r hrreq rid hid
      unfold statusOf
      rw [hfr]
      simp only [Option.map_some']
      rw [hrp]

theorem completed_only_via_confirm_or_sweep_witness :
    (∃ now : Int, Event.confirm 1 true 0 = Event.confirm 1 true now) ∨
    ((∃ now : Int, Event.confirm 1 true 0 = Event.sweep now) ∧
      statusOf (run initDB c4trace) 1 = some ReqStatus.pendingConfirmation) :=
  completed_only_via_confirm_or_sweep c4trace (Event.confirm 1 true 0) 1
    (by decide) (by decide)

end VPBot
